import Mathlib

set_option maxHeartbeats 1000000
set_option linter.unusedVariables false

/-!
Shallow embedding of the promptea schema-prompting engine
(src/lib.rs, src/constraints.rs, src/value.rs).

The interactive dialoguer widgets (Input, Select, MultiSelect, Confirm) are
external collaborators; they are modelled by a script of interaction events
consumed left to right.  Console rendering (titles, descriptions, colours,
the theme) has no effect on collected values and is omitted.  The f64/f32
field variants are outside the model (floating point).
-/

namespace Promptea

/-- serde_json::Value: the uniform structured value used for schema constants
and for every collected answer.  Numbers are modelled as integers (the float
variants of the engine are outside the model). -/
inductive Json where
  | null
  | bool (b : Bool)
  | num (n : Int)
  | str (s : String)
  | arr (items : List Json)
  | obj (fields : List (String × Json))

mutual

/-- Structural equality on values, modelling PartialEq on serde_json::Value
(used by check_conditions to compare picked against the selection). -/
def Json.beq : Json → Json → Bool
  | .null, .null => true
  | .bool a, .bool b => a == b
  | .num a, .num b => a == b
  | .str a, .str b => a == b
  | .arr a, .arr b => Json.beqList a b
  | .obj a, .obj b => Json.beqObj a b
  | _, _ => false

/-- Element-wise structural equality of value sequences. -/
def Json.beqList : List Json → List Json → Bool
  | [], [] => true
  | x :: xs, y :: ys => Json.beq x y && Json.beqList xs ys
  | _, _ => false

/-- Entry-wise structural equality of object entry lists. -/
def Json.beqObj : List (String × Json) → List (String × Json) → Bool
  | [], [] => true
  | (k1, v1) :: xs, (k2, v2) :: ys => k1 == k2 && Json.beq v1 v2 && Json.beqObj xs ys
  | _, _ => false

end

/-- The accumulating result mapping (BTreeMap<String, serde_json::Value> in
the source) and the serde_json object map, modelled as an association list;
only key membership and lookups matter to the claims, not iteration order. -/
abbrev PMap : Type := List (String × Json)

/-- Map insertion: replaces the value of an existing key, otherwise appends
(the key-set semantics of BTreeMap::insert / serde_json Map::insert). -/
def PMap.insert (k : String) (v : Json) : PMap → PMap
  | [] => [(k, v)]
  | (k', v') :: rest =>
    if k' = k then (k, v) :: rest else (k', v') :: PMap.insert k v rest

/-- Key membership in the result mapping. -/
def PMap.hasKey : PMap → String → Bool
  | [], _ => false
  | (k1, _) :: rest, k => k1 == k || PMap.hasKey rest k

/-- Lookup in the result mapping. -/
def PMap.find (m : PMap) (k : String) : Option Json :=
  match m with
  | [] => none
  | (k', v) :: rest => if k' = k then some v else PMap.find rest k

/-- How one blocking interaction with the operator can fail:
`ioFailure e` models an io::Error (carrying an abstract error code) from the
dialoguer call; `stuck` is a modelling artifact marking a script that cannot
supply the interaction the engine asked for (exhausted or of the wrong kind). -/
inductive PErr where
  | ioFailure (e : Nat)
  | stuck
deriving DecidableEq

/-- One scripted interaction outcome: a raw line typed into an Input widget,
the outcome of Select::interact_opt / Select::interact /
MultiSelect::interact_opt / Confirm::interact, or an I/O failure of the
interaction itself. -/
inductive Ev where
  | text (s : String)
  | selOpt (choice : Option Nat)
  | sel (choice : Nat)
  | multi (choice : Option (List Nat))
  | confirm (b : Bool)
  | ioErr (e : Nat)
deriving DecidableEq

/-- The interaction monad: a computation consumes a prefix of the event
script and either produces a value or stops with the error of a failed
interaction, returning the unconsumed suffix either way. -/
def M (α : Type) : Type := List Ev → Except PErr α × List Ev

/-- Return without consuming any event. -/
def M.pure (a : α) : M α := fun s => (.ok a, s)

/-- Sequencing: on failure of the first computation the failure is returned
unchanged and the second computation never runs. -/
def M.bind (m : M α) (f : α → M β) : M β := fun s =>
  match m s with
  | (.ok a, s') => f a s'
  | (.error e, s') => (.error e, s')

/-- Input::interact_text with a validate_with closure: the widget re-asks
until the operator supplies a line the closure accepts, and forwards an I/O
failure of the channel unchanged. -/
def interactText (validate : String → Except String Unit) : M String := fun s =>
  match s with
  | [] => (.error .stuck, [])
  | .text str :: rest =>
    match validate str with
    | .ok _ => (.ok str, rest)
    | .error _ => interactText validate rest
  | .ioErr e :: rest => (.error (.ioFailure e), rest)
  | other => (.error .stuck, other)

/-- Select::interact_opt: an optional single choice (Esc yields none). -/
def interactSelectOpt : M (Option Nat) := fun s =>
  match s with
  | [] => (.error .stuck, [])
  | .selOpt c :: rest => (.ok c, rest)
  | .ioErr e :: rest => (.error (.ioFailure e), rest)
  | other => (.error .stuck, other)

/-- Select::interact: a mandatory single choice. -/
def interactSelect : M Nat := fun s =>
  match s with
  | [] => (.error .stuck, [])
  | .sel c :: rest => (.ok c, rest)
  | .ioErr e :: rest => (.error (.ioFailure e), rest)
  | other => (.error .stuck, other)

/-- MultiSelect::interact_opt: a cancellable set of choices. -/
def interactMulti : M (Option (List Nat)) := fun s =>
  match s with
  | [] => (.error .stuck, [])
  | .multi c :: rest => (.ok c, rest)
  | .ioErr e :: rest => (.error (.ioFailure e), rest)
  | other => (.error .stuck, other)

/-- Confirm::interact: a yes/no confirmation. -/
def interactConfirm : M Bool := fun s =>
  match s with
  | [] => (.error .stuck, [])
  | .confirm b :: rest => (.ok b, rest)
  | .ioErr e :: rest => (.error (.ioFailure e), rest)
  | other => (.error .stuck, other)

/-- Rust String::len is the UTF-8 byte size of one character. -/
def charSize (c : Char) : Nat :=
  if c.toNat < 0x80 then 1
  else if c.toNat < 0x800 then 2
  else if c.toNat < 0x10000 then 3
  else 4

/-- Rust String::len: the UTF-8 byte length of the string. -/
def byteLen (s : String) : Nat :=
  s.data.foldl (fun n c => n + charSize c) 0

/-- Rust format's {:?} on a string: quoted (escaping of special characters
is not modelled; the claims only use plain text). -/
def debugStr (s : String) : String :=
  "\"" ++ s ++ "\""

/-- The regex collaborator (Regex::new + is_match), a black-box capability:
given the pattern and the input it reports a match, or a compile error
message.  The whole development is parameterised over it. -/
def RMatch : Type := String → String → Except String Bool

/-- constraints.rs StringConstraints. -/
structure StringConstraints where
  min_length : Nat
  max_length : Nat
  regex : Option String

/-- constraints.rs StringConstraints::validate (Validator<String>). -/
def StringConstraints.validate (rm : RMatch) (c : StringConstraints) (input : String) :
    Except String Unit :=
  if byteLen input < c.min_length then
    .error ("Value " ++ debugStr input ++
      " does not meet the minimum required length (" ++ toString c.max_length ++ ")")
  else if byteLen input > c.max_length then
    .error ("Value " ++ debugStr input ++
      " exceeds the maximum allowed length (" ++ toString c.max_length ++ ")")
  else
    match c.regex with
    | none => .ok ()
    | some re =>
      match rm re input with
      | .error e => .error ("Failed to build regex validator: " ++ e)
      | .ok true => .ok ()
      | .ok false =>
        .error ("Value " ++ debugStr input ++ " does not match regex pattern: " ++ debugStr re)

/-- constraints.rs IntConstraints<T>, one instantiation per numeric width;
the bounds live inside the width's representable range. -/
structure IntConstraints where
  min : Int
  max : Int

/-- constraints.rs IntConstraints::validate (Validator<T>). -/
def IntConstraints.validate (c : IntConstraints) (input : Int) : Except String Unit :=
  if input < c.min then
    .error ("Value " ++ toString input ++ " cannot be less than " ++ toString c.min)
  else if input > c.max then
    .error ("Value " ++ toString input ++ " must be less than " ++ toString c.max)
  else
    .ok ()

/-- constraints.rs CollectionConstraints. -/
structure CollectionConstraints where
  min_items : Nat
  max_items : Nat

/-- constraints.rs SelectConstraints. -/
structure SelectConstraints where
  select_many : Bool
  items : List Json

/-- The eight integer width/sign variants of the engine (the macro-generated
parse_primitives instantiations of value.rs, floats excluded). -/
inductive IWidth where
  | u64 | u32 | u16 | u8 | i64 | i32 | i16 | i8
deriving DecidableEq

/-- Whether the width accepts a leading minus sign when parsing. -/
def IWidth.signed : IWidth → Bool
  | .i64 | .i32 | .i16 | .i8 => true
  | _ => false

/-- The smallest representable value of the width (TraitIntBounds::min). -/
def IWidth.minVal : IWidth → Int
  | .u64 | .u32 | .u16 | .u8 => 0
  | .i64 => -(2 ^ 63)
  | .i32 => -(2 ^ 31)
  | .i16 => -(2 ^ 15)
  | .i8 => -(2 ^ 7)

/-- The largest representable value of the width (TraitIntBounds::max). -/
def IWidth.maxVal : IWidth → Int
  | .u64 => 2 ^ 64 - 1
  | .u32 => 2 ^ 32 - 1
  | .u16 => 2 ^ 16 - 1
  | .u8 => 2 ^ 8 - 1
  | .i64 => 2 ^ 63 - 1
  | .i32 => 2 ^ 31 - 1
  | .i16 => 2 ^ 15 - 1
  | .i8 => 2 ^ 7 - 1

/-- The per-width parse failure message fragment of the parse_primitives
macro (value.rs bottom). -/
def IWidth.parseMsg : IWidth → String
  | .u64 => "is not a valid positive number."
  | .u32 => "is not a valid positive 32-bit number."
  | .u16 => "is not a valid positive 16-bit number."
  | .u8 => "is not a valid positive 8-bit number."
  | .i64 => "is not a valid number."
  | .i32 => "is not a valid 32-bit number."
  | .i16 => "is not a valid 16-bit number."
  | .i8 => "is not a valid 8-bit number."

/-- Decimal digit run to a number; fails on an empty run or a non-digit. -/
def digitsToNat : List Char → Option Nat
  | [] => none
  | cs =>
    if cs.all Char.isDigit then
      some (cs.foldl (fun n c => n * 10 + (c.toNat - '0'.toNat)) 0)
    else none

/-- Rust FromStr for the integer widths: an optional '+' (any width) or '-'
(signed widths only) followed by at least one decimal digit; values outside
the width's representable range fail to parse (overflow errors). -/
def parseInt (w : IWidth) (s : String) : Option Int :=
  let inRange : Int → Option Int := fun v =>
    if w.minVal ≤ v ∧ v ≤ w.maxVal then some v else none
  match s.data with
  | [] => none
  | '+' :: cs => (digitsToNat cs).bind (fun n => inRange n)
  | '-' :: cs =>
    if w.signed then (digitsToNat cs).bind (fun n => inRange (-(n : Int)))
    else none
  | _ => (digitsToNat s.data).bind (fun n => inRange n)

/-- Rust FromStr for bool: exactly "true" or "false". -/
def parseBool (s : String) : Option Bool :=
  if s = "true" then some true
  else if s = "false" then some false
  else none

/-- The validate_with closure registered by the String PromptValue impl
(value.rs, String::prompt): an empty line is accepted without consulting the
constraint validator when the field may be skipped; otherwise the validator
(when one is registered) must accept. -/
def stringClosure (rm : RMatch) (validator : Option StringConstraints) (can_skip : Bool)
    (input : String) : Except String Unit :=
  if can_skip && input.isEmpty then .ok ()
  else
    match validator with
    | some v => StringConstraints.validate rm v input
    | none => .ok ()

/-- value.rs String::prompt: ask for text through the closure-guarded Input
widget, then map an empty accepted line to a skip (None) when allowed. -/
def stringPrompt (rm : RMatch) (field_name : String) (validator : Option StringConstraints)
    (can_skip : Bool) : M (Option String) :=
  M.bind (interactText (stringClosure rm validator can_skip)) (fun input =>
    M.pure (if can_skip && input.isEmpty then none else some input))

/-- The validate_with closure registered by the parse_primitives macro
(value.rs): skip-empty short-circuits, then the text must parse to the
width's type, then the constraint validator (when registered) must accept. -/
def intClosure (w : IWidth) (validator : Option IntConstraints) (can_skip : Bool)
    (input : String) : Except String Unit :=
  if can_skip && input.isEmpty then .ok ()
  else
    match parseInt w input with
    | none => .error ("Value (" ++ input ++ ") " ++ w.parseMsg)
    | some value =>
      match validator with
      | some c => IntConstraints.validate c value
      | none => .ok ()

/-- value.rs maybe_parse_value: the post-acceptance second parse whose result
is unwrapped; `none` models the unwrap panic on a parse failure. -/
def maybe_parse_value (w : IWidth) (can_skip : Bool) (input : String) :
    Option (Option Int) :=
  if can_skip && input.isEmpty then some none
  else
    match parseInt w input with
    | some v => some (some v)
    | none => none

/-- value.rs numeric PromptValue::prompt (parse_primitives macro): ask for
text through the closure-guarded Input widget, then re-parse the accepted
line with maybe_parse_value; the unreachable unwrap panic is modelled as a
stuck interaction. -/
def intPrompt (w : IWidth) (field_name : String) (validator : Option IntConstraints)
    (can_skip : Bool) : M (Option Int) :=
  M.bind (interactText (intClosure w validator can_skip)) (fun input =>
    match maybe_parse_value w can_skip input with
    | some r => M.pure r
    | none => fun s => (.error .stuck, s))

/-- The validate_with closure for bool answers: skip-empty short-circuits,
the text must parse to a bool, and the registered BlankValidator always
accepts. -/
def boolClosure (can_skip : Bool) (input : String) : Except String Unit :=
  if can_skip && input.isEmpty then .ok ()
  else
    match parseBool input with
    | none => .error ("Value (" ++ input ++ ") is not a valid boolean.")
    | some _ => .ok ()

/-- The bool second parse, mirroring maybe_parse_value for bool. -/
def boolMaybeParse (can_skip : Bool) (input : String) : Option (Option Bool) :=
  if can_skip && input.isEmpty then some none
  else
    match parseBool input with
    | some v => some (some v)
    | none => none

/-- Modelled from the spec: the PromptValue impl for bool is not in src
(lib.rs calls bool::prompt with a BlankValidator and can_skip); it is
modelled on the parse_primitives pattern with the no-op validator, matching
section 4.3 of the spec (a yes/no question with no constraints). -/
def boolPrompt (field_name : String) (can_skip : Bool) : M (Option Bool) :=
  M.bind (interactText (boolClosure can_skip)) (fun input =>
    match boolMaybeParse can_skip input with
    | some r => M.pure r
    | none => fun s => (.error .stuck, s))

/-- The body of lib.rs array_prompter's `for _ in 0..max_items` loop: the
fuel starts at max_items; each iteration asks for one item in always
skippable mode; an empty answer under the minimum reports the shortfall and
either offers to abandon the field (when it can be skipped) or re-prompts;
an empty answer at or over the minimum stops. -/
def arrayLoop (item : M (Option Json)) (can_skip : Bool) (min_items : Nat) :
    Nat → List Json → M (List Json)
  | 0, values => M.pure values
  | fuel + 1, values =>
    M.bind item (fun maybe_value =>
      match maybe_value with
      | some v => arrayLoop item can_skip min_items fuel (values ++ [v])
      | none =>
        if values.length < min_items then
          if can_skip then
            M.bind interactConfirm (fun skip =>
              if skip then M.pure values
              else arrayLoop item can_skip min_items fuel values)
          else arrayLoop item can_skip min_items fuel values
        else M.pure values)

/-- lib.rs array_prompter: run the bounded collection loop and wrap the
collected items into an array value. -/
def array_prompter (can_skip : Bool) (constraints : CollectionConstraints)
    (item : M (Option Json)) : M Json :=
  M.bind (arrayLoop item can_skip constraints.min_items constraints.max_items [])
    (fun values => M.pure (.arr values))

mutual

/-- lib.rs TypeConstraints: the tagged union of field kinds with their
constraint payloads.  The eight integer widths (U64..I8) are the `int`
variant indexed by IWidth, likewise their array forms; the F64/F32 variants
are outside the model (floating point). -/
inductive TypeConstraints where
  | bool
  | string (c : StringConstraints)
  | int (w : IWidth) (c : IntConstraints)
  | select (constraints : SelectConstraints) (conditions : Conditions)
  | object (fields : Fields)
  | arrayString (constraints : CollectionConstraints) (inner_constraints : StringConstraints)
  | arrayInt (w : IWidth) (constraints : CollectionConstraints) (inner_constraints : IntConstraints)

/-- lib.rs Field: display metadata, the kind with its constraints, and the
skip flag.  The second component is the optional prompt-message override. -/
inductive Field where
  | mk (display_name : Option String) (promptMsg : Option String) (description : String)
      (type_constraints : TypeConstraints) (can_skip : Bool)

/-- An ordered field mapping (IndexMap<String, Field> in the source). -/
inductive Fields where
  | nil
  | cons (key : String) (f : Field) (rest : Fields)

/-- constraints.rs Conditions: the insert_at_root flag and the ordered
if-conditions. -/
inductive Conditions where
  | mk (insert_at_root : Bool) (if_conditions : IfConditions)

/-- constraints.rs IfCondition: a trigger value and its dependent fields. -/
inductive IfCondition where
  | mk (picked : Json) (fields : Fields)

/-- An ordered sequence of if-conditions. -/
inductive IfConditions where
  | nil
  | cons (c : IfCondition) (rest : IfConditions)

end

/-- The declared keys of a field mapping, in order. -/
def Fields.keys : Fields → List String
  | .nil => []
  | .cons k _ rest => k :: Fields.keys rest

/-- lib.rs Schema: the traversal root. -/
structure Schema where
  fields : Fields

/-- Modelled from the spec: Inflector's to_title_case renders the field key
as a human title; it only feeds the displayed label, which never affects
collected values, so it is modelled as the identity. -/
def toTitleCase (s : String) : String := s

/-- serde_json Value::from on Option<bool>: None becomes Null. -/
def jsonOfOptBool : Option Bool → Json
  | none => .null
  | some b => .bool b

/-- serde_json Value::from on Option<String>: None becomes Null. -/
def jsonOfOptStr : Option String → Json
  | none => .null
  | some s => .str s

/-- serde_json Value::from on an optional number: None becomes Null. -/
def jsonOfOptNum : Option Int → Json
  | none => .null
  | some n => .num n

mutual

/-- lib.rs Field::prompt: renders the title and description (console only,
omitted), computes the displayed label (prompt override, else display name,
else the title-cased key) and dispatches to the kind handler. -/
def Field.prompt (rm : RMatch) (f : Field) (field_key : String) (quiet : Bool)
    (hide_title : Bool) (pf : PMap) : M (Json × PMap) :=
  match f with
  | .mk display_name promptMsg _description tc can_skip =>
    let field_name := (promptMsg.orElse (fun _ => display_name)).getD (toTitleCase field_key)
    TypeConstraints.prompt rm tc field_name can_skip quiet pf
termination_by (sizeOf f, 0)

/-- lib.rs TypeConstraints::prompt: per-kind resolution of one field to one
value, threading the accumulating top-level result mapping. -/
def TypeConstraints.prompt (rm : RMatch) (tc : TypeConstraints) (field_name : String)
    (can_skip : Bool) (quiet : Bool) (pf : PMap) : M (Json × PMap) :=
  match tc with
  | .bool =>
    M.bind (boolPrompt field_name can_skip) (fun r => M.pure (jsonOfOptBool r, pf))
  | .string c =>
    M.bind (stringPrompt rm field_name (some c) can_skip) (fun r =>
      M.pure (jsonOfOptStr r, pf))
  | .int w c =>
    M.bind (intPrompt w field_name (some c) can_skip) (fun r =>
      M.pure (jsonOfOptNum r, pf))
  | .select constraints conditions =>
    if constraints.select_many then
      M.bind interactMulti (fun maybe_selections =>
        match maybe_selections with
        | none => M.pure (.null, pf)
        | some selections =>
          M.bind
            (promptMultiSelected rm conditions
              (selections.filterMap (fun index => constraints.items.get? index)) quiet pf [])
            (fun vp => M.pure (Json.arr vp.1, vp.2)))
    else
      if can_skip then
        M.bind interactSelectOpt (fun mi =>
          M.bind
            (check_conditions rm conditions
              ((mi.bind (fun index => constraints.items.get? index)).getD .null) quiet pf)
            (fun rp =>
              M.pure
                (rp.1.getD ((mi.bind (fun index => constraints.items.get? index)).getD .null),
                  rp.2)))
      else
        M.bind interactSelect (fun index =>
          M.bind
            (check_conditions rm conditions ((constraints.items.get? index).getD .null) quiet pf)
            (fun rp =>
              M.pure (rp.1.getD ((constraints.items.get? index).getD .null), rp.2)))
  | .object fields =>
    M.bind (promptObjectFields rm fields quiet pf []) (fun op =>
      M.pure (Json.obj op.1, op.2))
  | .arrayString cc ic =>
    M.bind
      (array_prompter can_skip cc
        (M.bind (stringPrompt rm field_name (some ic) true) (fun r =>
          M.pure (r.map Json.str))))
      (fun v => M.pure (v, pf))
  | .arrayInt w cc ic =>
    M.bind
      (array_prompter can_skip cc
        (M.bind (intPrompt w field_name (some ic) true) (fun r =>
          M.pure (r.map Json.num))))
      (fun v => M.pure (v, pf))
termination_by (sizeOf tc, 0)

/-- The nested-object loop of TypeConstraints::prompt (Object arm): resolve
every child in declared order with hide_title, assembling the children's
answers into the object map. -/
def promptObjectFields (rm : RMatch) (fs : Fields) (quiet : Bool) (pf : PMap)
    (object : PMap) : M (PMap × PMap) :=
  match fs with
  | .nil => M.pure (object, pf)
  | .cons key f rest =>
    M.bind (Field.prompt rm f key quiet true pf) (fun vp =>
      promptObjectFields rm rest quiet vp.2 (PMap.insert key vp.1 object))
termination_by (sizeOf fs, 0)

/-- The per-selected-value loop of the multi-select arm: each selected value
goes through check_conditions and the returned override (or the plain value)
is pushed. -/
def promptMultiSelected (rm : RMatch) (conditions : Conditions) (sels : List Json)
    (quiet : Bool) (pf : PMap) (values : List Json) : M (List Json × PMap) :=
  match sels with
  | [] => M.pure (values, pf)
  | selected :: rest =>
    M.bind (check_conditions rm conditions selected quiet pf) (fun rp =>
      promptMultiSelected rm conditions rest quiet rp.2 (values ++ [rp.1.getD selected]))
termination_by (sizeOf conditions, 2 + sels.length)

/-- lib.rs check_conditions: scan the if-conditions against the selected
value and return the optional override value. -/
def check_conditions (rm : RMatch) (conditions : Conditions) (selected : Json)
    (quiet : Bool) (pf : PMap) : M (Option Json × PMap) :=
  match conditions with
  | .mk insert_at_root if_conditions =>
    scanConditions rm insert_at_root if_conditions selected quiet pf
termination_by (sizeOf conditions, 1)

/-- The loop of check_conditions: skip non-matching conditions; on the first
structural match prompt the dependent fields and stop (the `break`); with
insert_at_root the override stays None, otherwise it is the assembled
object. -/
def scanConditions (rm : RMatch) (insert_at_root : Bool) (cs : IfConditions)
    (selected : Json) (quiet : Bool) (pf : PMap) : M (Option Json × PMap) :=
  match cs with
  | .nil => M.pure (none, pf)
  | .cons (.mk picked fields) rest =>
    if Json.beq picked selected then
      M.bind (promptConditionFields rm insert_at_root fields quiet pf []) (fun op =>
        M.pure ((if insert_at_root then none else some (Json.obj op.1)), op.2))
    else scanConditions rm insert_at_root rest selected quiet pf
termination_by (sizeOf cs, 0)

/-- The dependent-fields loop of a fired if-condition: each dependent answer
goes to the top-level mapping (insert_at_root) or into the local object. -/
def promptConditionFields (rm : RMatch) (insert_at_root : Bool) (fs : Fields)
    (quiet : Bool) (pf : PMap) (object : PMap) : M (PMap × PMap) :=
  match fs with
  | .nil => M.pure (object, pf)
  | .cons key f rest =>
    M.bind (Field.prompt rm f key quiet false pf) (fun vp =>
      if insert_at_root then
        promptConditionFields rm insert_at_root rest quiet (PMap.insert key vp.1 vp.2) object
      else
        promptConditionFields rm insert_at_root rest quiet vp.2 (PMap.insert key vp.1 object))
termination_by (sizeOf fs, 0)

/-- The top-level traversal loop of Schema::prompt: resolve each field in
declared order and insert its value under its key. -/
def promptSchemaFields (rm : RMatch) (fs : Fields) (quiet : Bool) (pf : PMap) : M PMap :=
  match fs with
  | .nil => M.pure pf
  | .cons key f rest =>
    M.bind (Field.prompt rm f key quiet false pf) (fun vp =>
      promptSchemaFields rm rest quiet (PMap.insert key vp.1 vp.2))
termination_by (sizeOf fs, 0)

end

/-- lib.rs Schema::prompt: the public entry point; starts from the empty
result mapping. -/
def Schema.prompt (rm : RMatch) (s : Schema) (quiet : Bool) : M PMap :=
  promptSchemaFields rm s.fields quiet []

/-- A computation consumes a prefix of its script, and whenever it stops
with an I/O failure, the failure value is exactly the one carried by the
last consumed event. -/
def Consumes {α : Type} (m : M α) : Prop :=
  ∀ s : List Ev, ∃ k, k ≤ s.length ∧ (m s).2 = s.drop k ∧
    ∀ e, (m s).1 = .error (.ioFailure e) → ∃ j, j + 1 = k ∧ s.get? j = some (.ioErr e)

theorem consumes_pure {α : Type} (a : α) : Consumes (M.pure a) := by
  intro s
  exact ⟨0, Nat.zero_le _, rfl, fun e h => by simp [M.pure] at h⟩

theorem consumes_stuck {α : Type} : Consumes (fun s => ((.error .stuck : Except PErr α), s)) := by
  intro s
  exact ⟨0, Nat.zero_le _, rfl, fun e h => by simp at h⟩

theorem consumes_bind {α β : Type} (m : M α) (f : α → M β) (hm : Consumes m)
    (hf : ∀ a, Consumes (f a)) : Consumes (M.bind m f) := by
  intro s
  obtain ⟨k, hk, hdrop, herr⟩ := hm s
  rcases hrun : m s with ⟨r, s1⟩
  rw [hrun] at hdrop herr
  cases r with
  | ok a =>
    obtain ⟨k2, hk2, hdrop2, herr2⟩ := hf a s1
    refine ⟨k + k2, ?_, ?_, ?_⟩
    · have hlen : s1.length = s.length - k := by
        simp only at hdrop; rw [hdrop]; exact List.length_drop k s
      omega
    · show (M.bind m f s).2 = s.drop (k + k2)
      simp only [M.bind, hrun]
      simp only at hdrop
      rw [hdrop2, hdrop, List.drop_drop]
    · intro e he
      simp only [M.bind, hrun] at he
      obtain ⟨j2, hj2, hget2⟩ := herr2 e he
      refine ⟨k + j2, by omega, ?_⟩
      simp only at hdrop
      rw [← List.get?_drop, ← hdrop]
      exact hget2
  | error e' =>
    refine ⟨k, hk, ?_, ?_⟩
    · show (M.bind m f s).2 = s.drop k
      simp only [M.bind, hrun]
      exact hdrop
    · intro e he
      simp only [M.bind, hrun] at he
      simp only at herr
      have hee : e' = PErr.ioFailure e := by injection he
      exact herr e (by rw [hee])

theorem consumes_interactText (validate : String → Except String Unit) :
    Consumes (interactText validate) := by
  intro s
  induction s with
  | nil =>
    exact ⟨0, Nat.le_refl _, by simp [interactText], fun e h => by simp [interactText] at h⟩
  | cons ev rest ih =>
    cases ev with
    | text str =>
      cases hval : validate str with
      | ok u =>
        refine ⟨1, by simp, ?_, ?_⟩
        · simp [interactText, hval]
        · intro e h; simp [interactText, hval] at h
      | error msg =>
        obtain ⟨k, hk, hdrop, herr⟩ := ih
        refine ⟨k + 1, by simp; omega, ?_, ?_⟩
        · simpa [interactText, hval] using hdrop
        · intro e h
          simp only [interactText, hval] at h
          obtain ⟨j, hj, hget⟩ := herr e h
          exact ⟨j + 1, by omega, by simpa using hget⟩
    | selOpt c =>
      exact ⟨0, Nat.zero_le _, by simp [interactText], fun e h => by simp [interactText] at h⟩
    | sel c =>
      exact ⟨0, Nat.zero_le _, by simp [interactText], fun e h => by simp [interactText] at h⟩
    | multi c =>
      exact ⟨0, Nat.zero_le _, by simp [interactText], fun e h => by simp [interactText] at h⟩
    | confirm b =>
      exact ⟨0, Nat.zero_le _, by simp [interactText], fun e h => by simp [interactText] at h⟩
    | ioErr e' =>
      refine ⟨1, by simp, by simp [interactText], ?_⟩
      intro e h
      simp only [interactText] at h
      cases h
      exact ⟨0, rfl, rfl⟩

theorem consumes_interactSelectOpt : Consumes interactSelectOpt := by
  intro s
  match s with
  | [] =>
    exact ⟨0, Nat.le_refl _, by simp [interactSelectOpt], fun e h => by simp [interactSelectOpt] at h⟩
  | .selOpt c :: rest =>
    refine ⟨1, by simp, by simp [interactSelectOpt], ?_⟩
    intro e h; simp [interactSelectOpt] at h
  | .ioErr e' :: rest =>
    refine ⟨1, by simp, by simp [interactSelectOpt], ?_⟩
    intro e h
    simp only [interactSelectOpt] at h
    cases h
    exact ⟨0, rfl, rfl⟩
  | .text v :: rest =>
    exact ⟨0, Nat.zero_le _, by simp [interactSelectOpt], fun e h => by simp [interactSelectOpt] at h⟩
  | .sel v :: rest =>
    exact ⟨0, Nat.zero_le _, by simp [interactSelectOpt], fun e h => by simp [interactSelectOpt] at h⟩
  | .multi v :: rest =>
    exact ⟨0, Nat.zero_le _, by simp [interactSelectOpt], fun e h => by simp [interactSelectOpt] at h⟩
  | .confirm v :: rest =>
    exact ⟨0, Nat.zero_le _, by simp [interactSelectOpt], fun e h => by simp [interactSelectOpt] at h⟩

theorem consumes_interactSelect : Consumes interactSelect := by
  intro s
  match s with
  | [] =>
    exact ⟨0, Nat.le_refl _, by simp [interactSelect], fun e h => by simp [interactSelect] at h⟩
  | .sel c :: rest =>
    refine ⟨1, by simp, by simp [interactSelect], ?_⟩
    intro e h; simp [interactSelect] at h
  | .ioErr e' :: rest =>
    refine ⟨1, by simp, by simp [interactSelect], ?_⟩
    intro e h
    simp only [interactSelect] at h
    cases h
    exact ⟨0, rfl, rfl⟩
  | .text v :: rest =>
    exact ⟨0, Nat.zero_le _, by simp [interactSelect], fun e h => by simp [interactSelect] at h⟩
  | .selOpt v :: rest =>
    exact ⟨0, Nat.zero_le _, by simp [interactSelect], fun e h => by simp [interactSelect] at h⟩
  | .multi v :: rest =>
    exact ⟨0, Nat.zero_le _, by simp [interactSelect], fun e h => by simp [interactSelect] at h⟩
  | .confirm v :: rest =>
    exact ⟨0, Nat.zero_le _, by simp [interactSelect], fun e h => by simp [interactSelect] at h⟩

theorem consumes_interactMulti : Consumes interactMulti := by
  intro s
  match s with
  | [] =>
    exact ⟨0, Nat.le_refl _, by simp [interactMulti], fun e h => by simp [interactMulti] at h⟩
  | .multi c :: rest =>
    refine ⟨1, by simp, by simp [interactMulti], ?_⟩
    intro e h; simp [interactMulti] at h
  | .ioErr e' :: rest =>
    refine ⟨1, by simp, by simp [interactMulti], ?_⟩
    intro e h
    simp only [interactMulti] at h
    cases h
    exact ⟨0, rfl, rfl⟩
  | .text v :: rest =>
    exact ⟨0, Nat.zero_le _, by simp [interactMulti], fun e h => by simp [interactMulti] at h⟩
  | .selOpt v :: rest =>
    exact ⟨0, Nat.zero_le _, by simp [interactMulti], fun e h => by simp [interactMulti] at h⟩
  | .sel v :: rest =>
    exact ⟨0, Nat.zero_le _, by simp [interactMulti], fun e h => by simp [interactMulti] at h⟩
  | .confirm v :: rest =>
    exact ⟨0, Nat.zero_le _, by simp [interactMulti], fun e h => by simp [interactMulti] at h⟩

theorem consumes_interactConfirm : Consumes interactConfirm := by
  intro s
  match s with
  | [] =>
    exact ⟨0, Nat.le_refl _, by simp [interactConfirm], fun e h => by simp [interactConfirm] at h⟩
  | .confirm c :: rest =>
    refine ⟨1, by simp, by simp [interactConfirm], ?_⟩
    intro e h; simp [interactConfirm] at h
  | .ioErr e' :: rest =>
    refine ⟨1, by simp, by simp [interactConfirm], ?_⟩
    intro e h
    simp only [interactConfirm] at h
    cases h
    exact ⟨0, rfl, rfl⟩
  | .text v :: rest =>
    exact ⟨0, Nat.zero_le _, by simp [interactConfirm], fun e h => by simp [interactConfirm] at h⟩
  | .selOpt v :: rest =>
    exact ⟨0, Nat.zero_le _, by simp [interactConfirm], fun e h => by simp [interactConfirm] at h⟩
  | .sel v :: rest =>
    exact ⟨0, Nat.zero_le _, by simp [interactConfirm], fun e h => by simp [interactConfirm] at h⟩
  | .multi v :: rest =>
    exact ⟨0, Nat.zero_le _, by simp [interactConfirm], fun e h => by simp [interactConfirm] at h⟩

theorem consumes_stringPrompt (rm : RMatch) (n : String) (v : Option StringConstraints)
    (cs : Bool) : Consumes (stringPrompt rm n v cs) :=
  consumes_bind _ _ (consumes_interactText _) (fun _ => consumes_pure _)

theorem consumes_intPrompt (w : IWidth) (n : String) (v : Option IntConstraints)
    (cs : Bool) : Consumes (intPrompt w n v cs) := by
  refine consumes_bind _ _ (consumes_interactText _) (fun input => ?_)
  cases maybe_parse_value w cs input with
  | some r => exact consumes_pure _
  | none => exact consumes_stuck

theorem consumes_boolPrompt (n : String) (cs : Bool) : Consumes (boolPrompt n cs) := by
  refine consumes_bind _ _ (consumes_interactText _) (fun input => ?_)
  cases boolMaybeParse cs input with
  | some r => exact consumes_pure _
  | none => exact consumes_stuck

theorem consumes_arrayLoop (item : M (Option Json)) (can_skip : Bool) (min_items : Nat)
    (hitem : Consumes item) :
    ∀ (fuel : Nat) (values : List Json), Consumes (arrayLoop item can_skip min_items fuel values) := by
  intro fuel
  induction fuel with
  | zero => exact fun values => consumes_pure _
  | succ n ih =>
    intro values
    refine consumes_bind _ _ hitem (fun mv => ?_)
    cases mv with
    | some v => exact ih _
    | none =>
      simp only
      split
      · split
        · exact consumes_bind _ _ consumes_interactConfirm (fun skip => by
            cases skip with
            | true => exact consumes_pure _
            | false => exact ih _)
        · exact ih _
      · exact consumes_pure _

theorem consumes_array_prompter (can_skip : Bool) (cc : CollectionConstraints)
    (item : M (Option Json)) (hitem : Consumes item) :
    Consumes (array_prompter can_skip cc item) :=
  consumes_bind _ _ (consumes_arrayLoop _ _ _ hitem _ _) (fun _ => consumes_pure _)

mutual

theorem consumes_Field_prompt (rm : RMatch) (f : Field) (field_key : String) (quiet : Bool)
    (hide_title : Bool) (pf : PMap) :
    Consumes (Field.prompt rm f field_key quiet hide_title pf) := by
  cases f with
  | mk dn pm d tc cs =>
    simp only [Field.prompt]
    exact consumes_TC_prompt rm tc _ cs quiet pf
termination_by (sizeOf f, 0)

theorem consumes_TC_prompt (rm : RMatch) (tc : TypeConstraints) (field_name : String)
    (can_skip : Bool) (quiet : Bool) (pf : PMap) :
    Consumes (TypeConstraints.prompt rm tc field_name can_skip quiet pf) := by
  cases tc with
  | bool =>
    simp only [TypeConstraints.prompt]
    exact consumes_bind _ _ (consumes_boolPrompt _ _) (fun r => consumes_pure _)
  | string c =>
    simp only [TypeConstraints.prompt]
    exact consumes_bind _ _ (consumes_stringPrompt _ _ _ _) (fun r => consumes_pure _)
  | int w c =>
    simp only [TypeConstraints.prompt]
    exact consumes_bind _ _ (consumes_intPrompt _ _ _ _) (fun r => consumes_pure _)
  | select constraints conditions =>
    simp only [TypeConstraints.prompt]
    split
    · refine consumes_bind _ _ consumes_interactMulti (fun ms => ?_)
      cases ms with
      | none => exact consumes_pure _
      | some selections =>
        exact consumes_bind _ _
          (consumes_promptMultiSelected rm conditions _ quiet pf [])
          (fun vp => consumes_pure _)
    · split
      · refine consumes_bind _ _ consumes_interactSelectOpt (fun mi => ?_)
        exact consumes_bind _ _
          (consumes_check_conditions rm conditions _ quiet pf)
          (fun rp => consumes_pure _)
      · refine consumes_bind _ _ consumes_interactSelect (fun index => ?_)
        exact consumes_bind _ _
          (consumes_check_conditions rm conditions _ quiet pf)
          (fun rp => consumes_pure _)
  | object fields =>
    simp only [TypeConstraints.prompt]
    exact consumes_bind _ _ (consumes_promptObjectFields rm fields quiet pf [])
      (fun op => consumes_pure _)
  | arrayString cc ic =>
    simp only [TypeConstraints.prompt]
    exact consumes_bind _ _
      (consumes_array_prompter _ _ _
        (consumes_bind _ _ (consumes_stringPrompt _ _ _ _) (fun r => consumes_pure _)))
      (fun v => consumes_pure _)
  | arrayInt w cc ic =>
    simp only [TypeConstraints.prompt]
    exact consumes_bind _ _
      (consumes_array_prompter _ _ _
        (consumes_bind _ _ (consumes_intPrompt _ _ _ _) (fun r => consumes_pure _)))
      (fun v => consumes_pure _)
termination_by (sizeOf tc, 0)

theorem consumes_promptObjectFields (rm : RMatch) (fs : Fields) (quiet : Bool) (pf : PMap)
    (object : PMap) : Consumes (promptObjectFields rm fs quiet pf object) := by
  cases fs with
  | nil =>
    simp only [promptObjectFields]
    exact consumes_pure _
  | cons key f rest =>
    simp only [promptObjectFields]
    exact consumes_bind _ _ (consumes_Field_prompt rm f key quiet true pf)
      (fun vp => consumes_promptObjectFields rm rest quiet vp.2 (PMap.insert key vp.1 object))
termination_by (sizeOf fs, 0)

theorem consumes_promptMultiSelected (rm : RMatch) (conditions : Conditions) (sels : List Json)
    (quiet : Bool) (pf : PMap) (values : List Json) :
    Consumes (promptMultiSelected rm conditions sels quiet pf values) := by
  cases sels with
  | nil =>
    simp only [promptMultiSelected]
    exact consumes_pure _
  | cons selected rest =>
    simp only [promptMultiSelected]
    exact consumes_bind _ _ (consumes_check_conditions rm conditions selected quiet pf)
      (fun rp => consumes_promptMultiSelected rm conditions rest quiet rp.2 _)
termination_by (sizeOf conditions, 2 + sels.length)

theorem consumes_check_conditions (rm : RMatch) (conditions : Conditions) (selected : Json)
    (quiet : Bool) (pf : PMap) :
    Consumes (check_conditions rm conditions selected quiet pf) := by
  cases conditions with
  | mk insert_at_root if_conditions =>
    simp only [check_conditions]
    exact consumes_scanConditions rm insert_at_root if_conditions selected quiet pf
termination_by (sizeOf conditions, 1)

theorem consumes_scanConditions (rm : RMatch) (insert_at_root : Bool) (cs : IfConditions)
    (selected : Json) (quiet : Bool) (pf : PMap) :
    Consumes (scanConditions rm insert_at_root cs selected quiet pf) := by
  cases cs with
  | nil =>
    simp only [scanConditions]
    exact consumes_pure _
  | cons c rest =>
    cases c with
    | mk picked fields =>
      simp only [scanConditions]
      split
      · exact consumes_bind _ _
          (consumes_promptConditionFields rm insert_at_root fields quiet pf [])
          (fun op => consumes_pure _)
      · exact consumes_scanConditions rm insert_at_root rest selected quiet pf
termination_by (sizeOf cs, 0)

theorem consumes_promptConditionFields (rm : RMatch) (insert_at_root : Bool) (fs : Fields)
    (quiet : Bool) (pf : PMap) (object : PMap) :
    Consumes (promptConditionFields rm insert_at_root fs quiet pf object) := by
  cases fs with
  | nil =>
    simp only [promptConditionFields]
    exact consumes_pure _
  | cons key f rest =>
    simp only [promptConditionFields]
    refine consumes_bind _ _ (consumes_Field_prompt rm f key quiet false pf) (fun vp => ?_)
    split
    · exact consumes_promptConditionFields rm insert_at_root rest quiet _ object
    · exact consumes_promptConditionFields rm insert_at_root rest quiet vp.2 _
termination_by (sizeOf fs, 0)

theorem consumes_promptSchemaFields (rm : RMatch) (fs : Fields) (quiet : Bool) (pf : PMap) :
    Consumes (promptSchemaFields rm fs quiet pf) := by
  cases fs with
  | nil =>
    simp only [promptSchemaFields]
    exact consumes_pure _
  | cons key f rest =>
    simp only [promptSchemaFields]
    exact consumes_bind _ _ (consumes_Field_prompt rm f key quiet false pf)
      (fun vp => consumes_promptSchemaFields rm rest quiet _)
termination_by (sizeOf fs, 0)

end

theorem consumes_Schema_prompt (rm : RMatch) (sch : Schema) (quiet : Bool) :
    Consumes (Schema.prompt rm sch quiet) := by
  simp only [Schema.prompt]
  exact consumes_promptSchemaFields rm sch.fields quiet []

theorem M.bind_ok {α β : Type} {m : M α} {f : α → M β} {s : List Ev} {b : β} {s' : List Ev}
    (h : M.bind m f s = (.ok b, s')) :
    ∃ a s1, m s = (.ok a, s1) ∧ f a s1 = (.ok b, s') := by
  rcases hm : m s with ⟨r, s1⟩
  cases r with
  | ok a =>
    simp only [M.bind, hm] at h
    exact ⟨a, s1, rfl, h⟩
  | error e =>
    simp only [M.bind, hm] at h
    cases h

theorem M.pure_ok {α : Type} {a b : α} {s s' : List Ev}
    (h : M.pure a s = (.ok b, s')) : a = b ∧ s = s' := by
  simp only [M.pure] at h
  cases h
  exact ⟨rfl, rfl⟩

theorem PMap.hasKey_insert_self (m : PMap) (k : String) (v : Json) :
    PMap.hasKey (PMap.insert k v m) k = true := by
  induction m with
  | nil => simp [PMap.insert, PMap.hasKey]
  | cons kv rest ih =>
    rcases kv with ⟨k', v'⟩
    by_cases hkk : k' = k
    · simp [PMap.insert, PMap.hasKey, hkk]
    · simp [PMap.insert, hkk, PMap.hasKey, ih]

theorem PMap.hasKey_insert_mono (m : PMap) (k k' : String) (v : Json)
    (h : PMap.hasKey m k' = true) : PMap.hasKey (PMap.insert k v m) k' = true := by
  induction m with
  | nil => simp [PMap.hasKey] at h
  | cons kv rest ih =>
    rcases kv with ⟨k1, v1⟩
    simp only [PMap.hasKey, Bool.or_eq_true, beq_iff_eq] at h
    by_cases hkk : k1 = k
    · subst hkk
      simp only [PMap.insert, if_pos rfl, PMap.hasKey, Bool.or_eq_true, beq_iff_eq]
      tauto
    · simp only [PMap.insert, if_neg hkk, PMap.hasKey, Bool.or_eq_true, beq_iff_eq]
      rcases h with h | h
      · exact Or.inl h
      · exact Or.inr (ih h)

mutual

theorem mono_Field_prompt (rm : RMatch) (f : Field) (field_key : String) (quiet : Bool)
    (hide_title : Bool) (pf : PMap) :
    ∀ s out s', Field.prompt rm f field_key quiet hide_title pf s = (.ok out, s') →
      ∀ k, PMap.hasKey pf k = true → PMap.hasKey out.2 k = true := by
  intro s out s' h k hk
  cases f with
  | mk dn pm d tc cs =>
    simp only [Field.prompt] at h
    exact mono_TC_prompt rm tc _ cs quiet pf s out s' h k hk
termination_by (sizeOf f, 0)

theorem mono_TC_prompt (rm : RMatch) (tc : TypeConstraints) (field_name : String)
    (can_skip : Bool) (quiet : Bool) (pf : PMap) :
    ∀ s out s', TypeConstraints.prompt rm tc field_name can_skip quiet pf s = (.ok out, s') →
      ∀ k, PMap.hasKey pf k = true → PMap.hasKey out.2 k = true := by
  intro s out s' h k hk
  cases tc with
  | bool =>
    simp only [TypeConstraints.prompt] at h
    obtain ⟨r, s1, hm, hf⟩ := M.bind_ok h
    obtain ⟨heq, -⟩ := M.pure_ok hf
    rw [← heq]
    exact hk
  | string c =>
    simp only [TypeConstraints.prompt] at h
    obtain ⟨r, s1, hm, hf⟩ := M.bind_ok h
    obtain ⟨heq, -⟩ := M.pure_ok hf
    rw [← heq]
    exact hk
  | int w c =>
    simp only [TypeConstraints.prompt] at h
    obtain ⟨r, s1, hm, hf⟩ := M.bind_ok h
    obtain ⟨heq, -⟩ := M.pure_ok hf
    rw [← heq]
    exact hk
  | select constraints conditions =>
    simp only [TypeConstraints.prompt] at h
    split at h
    · obtain ⟨ms, s1, hm, hf⟩ := M.bind_ok h
      cases ms with
      | none =>
        obtain ⟨heq, -⟩ := M.pure_ok hf
        rw [← heq]
        exact hk
      | some selections =>
        obtain ⟨vp, s2, hmulti, hpure⟩ := M.bind_ok hf
        obtain ⟨heq, -⟩ := M.pure_ok hpure
        rw [← heq]
        exact mono_promptMultiSelected rm conditions _ quiet pf [] s1 vp s2 hmulti k hk
    · split at h
      · obtain ⟨mi, s1, hm, hf⟩ := M.bind_ok h
        obtain ⟨rp, s2, hcheck, hpure⟩ := M.bind_ok hf
        obtain ⟨heq, -⟩ := M.pure_ok hpure
        rw [← heq]
        exact mono_check_conditions rm conditions _ quiet pf s1 rp s2 hcheck k hk
      · obtain ⟨index, s1, hm, hf⟩ := M.bind_ok h
        obtain ⟨rp, s2, hcheck, hpure⟩ := M.bind_ok hf
        obtain ⟨heq, -⟩ := M.pure_ok hpure
        rw [← heq]
        exact mono_check_conditions rm conditions _ quiet pf s1 rp s2 hcheck k hk
  | object fields =>
    simp only [TypeConstraints.prompt] at h
    obtain ⟨op, s1, hobj, hpure⟩ := M.bind_ok h
    obtain ⟨heq, -⟩ := M.pure_ok hpure
    rw [← heq]
    exact mono_promptObjectFields rm fields quiet pf [] s op s1 hobj k hk
  | arrayString cc ic =>
    simp only [TypeConstraints.prompt] at h
    obtain ⟨v, s1, hm, hf⟩ := M.bind_ok h
    obtain ⟨heq, -⟩ := M.pure_ok hf
    rw [← heq]
    exact hk
  | arrayInt w cc ic =>
    simp only [TypeConstraints.prompt] at h
    obtain ⟨v, s1, hm, hf⟩ := M.bind_ok h
    obtain ⟨heq, -⟩ := M.pure_ok hf
    rw [← heq]
    exact hk
termination_by (sizeOf tc, 0)

theorem mono_promptObjectFields (rm : RMatch) (fs : Fields) (quiet : Bool) (pf : PMap)
    (object : PMap) :
    ∀ s out s', promptObjectFields rm fs quiet pf object s = (.ok out, s') →
      ∀ k, PMap.hasKey pf k = true → PMap.hasKey out.2 k = true := by
  intro s out s' h k hk
  cases fs with
  | nil =>
    simp only [promptObjectFields] at h
    obtain ⟨heq, -⟩ := M.pure_ok h
    rw [← heq]
    exact hk
  | cons key f rest =>
    simp only [promptObjectFields] at h
    obtain ⟨vp, s1, hfp, hrest⟩ := M.bind_ok h
    exact mono_promptObjectFields rm rest quiet vp.2 _ s1 out s' hrest k
      (mono_Field_prompt rm f key quiet true pf s vp s1 hfp k hk)
termination_by (sizeOf fs, 0)

theorem mono_promptMultiSelected (rm : RMatch) (conditions : Conditions) (sels : List Json)
    (quiet : Bool) (pf : PMap) (values : List Json) :
    ∀ s out s', promptMultiSelected rm conditions sels quiet pf values s = (.ok out, s') →
      ∀ k, PMap.hasKey pf k = true → PMap.hasKey out.2 k = true := by
  intro s out s' h k hk
  cases sels with
  | nil =>
    simp only [promptMultiSelected] at h
    obtain ⟨heq, -⟩ := M.pure_ok h
    rw [← heq]
    exact hk
  | cons selected rest =>
    simp only [promptMultiSelected] at h
    obtain ⟨rp, s1, hcheck, hrest⟩ := M.bind_ok h
    exact mono_promptMultiSelected rm conditions rest quiet rp.2 _ s1 out s' hrest k
      (mono_check_conditions rm conditions selected quiet pf s rp s1 hcheck k hk)
termination_by (sizeOf conditions, 2 + sels.length)

theorem mono_check_conditions (rm : RMatch) (conditions : Conditions) (selected : Json)
    (quiet : Bool) (pf : PMap) :
    ∀ s out s', check_conditions rm conditions selected quiet pf s = (.ok out, s') →
      ∀ k, PMap.hasKey pf k = true → PMap.hasKey out.2 k = true := by
  intro s out s' h k hk
  cases conditions with
  | mk insert_at_root if_conditions =>
    simp only [check_conditions] at h
    exact mono_scanConditions rm insert_at_root if_conditions selected quiet pf s out s' h k hk
termination_by (sizeOf conditions, 1)

theorem mono_scanConditions (rm : RMatch) (insert_at_root : Bool) (cs : IfConditions)
    (selected : Json) (quiet : Bool) (pf : PMap) :
    ∀ s out s', scanConditions rm insert_at_root cs selected quiet pf s = (.ok out, s') →
      ∀ k, PMap.hasKey pf k = true → PMap.hasKey out.2 k = true := by
  intro s out s' h k hk
  cases cs with
  | nil =>
    simp only [scanConditions] at h
    obtain ⟨heq, -⟩ := M.pure_ok h
    rw [← heq]
    exact hk
  | cons c rest =>
    cases c with
    | mk picked fields =>
      simp only [scanConditions] at h
      split at h
      · obtain ⟨op, s1, hcond, hpure⟩ := M.bind_ok h
        obtain ⟨heq, -⟩ := M.pure_ok hpure
        rw [← heq]
        exact mono_promptConditionFields rm insert_at_root fields quiet pf [] s op s1 hcond k hk
      · exact mono_scanConditions rm insert_at_root rest selected quiet pf s out s' h k hk
termination_by (sizeOf cs, 0)

theorem mono_promptConditionFields (rm : RMatch) (insert_at_root : Bool) (fs : Fields)
    (quiet : Bool) (pf : PMap) (object : PMap) :
    ∀ s out s', promptConditionFields rm insert_at_root fs quiet pf object s = (.ok out, s') →
      ∀ k, PMap.hasKey pf k = true → PMap.hasKey out.2 k = true := by
  intro s out s' h k hk
  cases fs with
  | nil =>
    simp only [promptConditionFields] at h
    obtain ⟨heq, -⟩ := M.pure_ok h
    rw [← heq]
    exact hk
  | cons key f rest =>
    simp only [promptConditionFields] at h
    obtain ⟨vp, s1, hfp, hrest⟩ := M.bind_ok h
    have hk2 : PMap.hasKey vp.2 k = true :=
      mono_Field_prompt rm f key quiet false pf s vp s1 hfp k hk
    split at hrest
    · exact mono_promptConditionFields rm insert_at_root rest quiet _ object s1 out s' hrest k
        (PMap.hasKey_insert_mono vp.2 key k vp.1 hk2)
    · exact mono_promptConditionFields rm insert_at_root rest quiet vp.2 _ s1 out s' hrest k hk2
termination_by (sizeOf fs, 0)

theorem mono_promptSchemaFields (rm : RMatch) (fs : Fields) (quiet : Bool) (pf : PMap) :
    ∀ s out s', promptSchemaFields rm fs quiet pf s = (.ok out, s') →
      ∀ k, PMap.hasKey pf k = true → PMap.hasKey out k = true := by
  intro s out s' h k hk
  cases fs with
  | nil =>
    simp only [promptSchemaFields] at h
    obtain ⟨heq, -⟩ := M.pure_ok h
    rw [← heq]
    exact hk
  | cons key f rest =>
    simp only [promptSchemaFields] at h
    obtain ⟨vp, s1, hfp, hrest⟩ := M.bind_ok h
    exact mono_promptSchemaFields rm rest quiet _ s1 out s' hrest k
      (PMap.hasKey_insert_mono vp.2 key k vp.1
        (mono_Field_prompt rm f key quiet false pf s vp s1 hfp k hk))
termination_by (sizeOf fs, 0)

end

theorem keys_promptSchemaFields (rm : RMatch) (fs : Fields) (quiet : Bool) (pf : PMap) :
    ∀ s out s', promptSchemaFields rm fs quiet pf s = (.ok out, s') →
      ∀ k, k ∈ Fields.keys fs → PMap.hasKey out k = true := by
  intro s out s' h k hmem
  cases fs with
  | nil => simp [Fields.keys] at hmem
  | cons key f rest =>
    simp only [promptSchemaFields] at h
    obtain ⟨vp, s1, hfp, hrest⟩ := M.bind_ok h
    simp only [Fields.keys, List.mem_cons] at hmem
    rcases hmem with hmem | hmem
    · subst hmem
      exact mono_promptSchemaFields rm rest quiet _ s1 out s' hrest k
        (PMap.hasKey_insert_self vp.2 k vp.1)
    · exact keys_promptSchemaFields rm rest quiet _ s1 out s' hrest k hmem
termination_by sizeOf fs

/-- Key membership after a map insertion. -/
theorem PMap.hasKey_insert_iff (m : PMap) (k k' : String) (v : Json) :
    PMap.hasKey (PMap.insert k v m) k' = true ↔ (k' = k ∨ PMap.hasKey m k' = true) := by
  induction m with
  | nil =>
    simp only [PMap.insert, PMap.hasKey, Bool.or_eq_true, beq_iff_eq]
    constructor
    · rintro (h | h)
      · exact Or.inl h.symm
      · cases h
    · rintro (h | h)
      · exact Or.inl h.symm
      · cases h
  | cons kv rest ih =>
    rcases kv with ⟨k1, v1⟩
    by_cases hkk : k1 = k
    · subst hkk
      simp only [PMap.insert, if_pos rfl, PMap.hasKey, Bool.or_eq_true, beq_iff_eq]
      constructor
      · intro h
        exact Or.inr h
      · rintro (h | h)
        · exact Or.inl h.symm
        · exact h
    · simp only [PMap.insert, if_neg hkk, PMap.hasKey, Bool.or_eq_true, beq_iff_eq, ih]
      tauto

theorem PMap.hasKey_nil (k : String) : PMap.hasKey [] k = false := rfl

/-- Appending two if-condition sequences. -/
def IfConditions.append : IfConditions → IfConditions → IfConditions
  | .nil, cs => cs
  | .cons c rest, cs => .cons c (IfConditions.append rest cs)

/-- No condition of the sequence has a picked value structurally equal to
the selected value. -/
def IfConditions.noneMatches : IfConditions → Json → Bool
  | .nil, _ => true
  | .cons (.mk picked _) rest, sel => !Json.beq picked sel && IfConditions.noneMatches rest sel

/-- Scanning past a block of non-matching conditions leaves the run
unchanged: non-matching entries are skipped without any interaction. -/
theorem scanConditions_skip (rm : RMatch) (insert_at_root : Bool) (pre cs : IfConditions)
    (selected : Json) (quiet : Bool) (pf : PMap)
    (hnone : IfConditions.noneMatches pre selected = true) :
    ∀ s, scanConditions rm insert_at_root (IfConditions.append pre cs) selected quiet pf s =
      scanConditions rm insert_at_root cs selected quiet pf s := by
  intro s
  cases pre with
  | nil => simp [IfConditions.append]
  | cons c rest =>
    cases c with
    | mk picked fields =>
      simp only [IfConditions.noneMatches, Bool.and_eq_true, Bool.not_eq_true'] at hnone
      simp only [IfConditions.append, scanConditions, hnone.1]
      exact scanConditions_skip rm insert_at_root rest cs selected quiet pf hnone.2 s
termination_by sizeOf pre

/-- A string returned by the closure-guarded Input widget was accepted by
the closure. -/
theorem interactText_accepts (validate : String → Except String Unit) :
    ∀ s str rest, interactText validate s = (.ok str, rest) → validate str = .ok () := by
  intro s
  induction s with
  | nil => intro str rest h; simp [interactText] at h
  | cons ev tail ih =>
    intro str rest h
    cases ev with
    | text t =>
      cases hval : validate t with
      | ok u =>
        simp only [interactText, hval] at h
        cases h
        cases u
        exact hval
      | error msg =>
        simp only [interactText, hval] at h
        exact ih str rest h
    | selOpt c => simp [interactText] at h
    | sel c => simp [interactText] at h
    | multi c => simp [interactText] at h
    | confirm b => simp [interactText] at h
    | ioErr e => simp [interactText] at h

/-- What a fired condition's dependent-field loop produces: with
insert_at_root the local object is left untouched and every dependent key
lands in the top-level mapping; without it the local object collects exactly
the dependent keys. -/
theorem promptConditionFields_spec (rm : RMatch) (insert_at_root : Bool) (fs : Fields)
    (quiet : Bool) (pf : PMap) (object : PMap) :
    ∀ s out s', promptConditionFields rm insert_at_root fs quiet pf object s = (.ok out, s') →
      (insert_at_root = true →
        out.1 = object ∧ ∀ k, k ∈ Fields.keys fs → PMap.hasKey out.2 k = true) ∧
      (insert_at_root = false →
        ∀ k, PMap.hasKey out.1 k = true ↔ (k ∈ Fields.keys fs ∨ PMap.hasKey object k = true)) := by
  intro s out s' h
  cases fs with
  | nil =>
    simp only [promptConditionFields] at h
    obtain ⟨heq, -⟩ := M.pure_ok h
    rw [← heq]
    constructor
    · intro _
      exact ⟨rfl, fun k hk => by simp [Fields.keys] at hk⟩
    · intro _ k
      simp [Fields.keys]
  | cons key f rest =>
    simp only [promptConditionFields] at h
    obtain ⟨vp, s1, hfp, hrest⟩ := M.bind_ok h
    cases insert_at_root with
    | true =>
      rw [if_pos rfl] at hrest
      have rec := promptConditionFields_spec rm true rest quiet
        (PMap.insert key vp.1 vp.2) object s1 out s' hrest
      refine ⟨fun _ => ⟨(rec.1 rfl).1, ?_⟩, fun hf => Bool.noConfusion hf⟩
      intro k hk
      simp only [Fields.keys, List.mem_cons] at hk
      rcases hk with hk | hk
      · subst hk
        exact mono_promptConditionFields rm true rest quiet _ object s1 out s' hrest k
          (PMap.hasKey_insert_self vp.2 k vp.1)
      · exact (rec.1 rfl).2 k hk
    | false =>
      rw [if_neg (by simp)] at hrest
      have rec := promptConditionFields_spec rm false rest quiet vp.2
        (PMap.insert key vp.1 object) s1 out s' hrest
      refine ⟨fun ht => Bool.noConfusion ht, fun _ k => ?_⟩
      rw [(rec.2 rfl) k, PMap.hasKey_insert_iff]
      simp only [Fields.keys, List.mem_cons]
      tauto
termination_by sizeOf fs

/-- The collection loop can return at most as many items as it has fuel
left, on any script whatsoever. -/
theorem arrayLoop_length (item : M (Option Json)) (can_skip : Bool) (min_items : Nat) :
    ∀ fuel values s out s', arrayLoop item can_skip min_items fuel values s = (.ok out, s') →
      out.length ≤ values.length + fuel := by
  intro fuel
  induction fuel with
  | zero =>
    intro values s out s' h
    simp only [arrayLoop] at h
    obtain ⟨heq, -⟩ := M.pure_ok h
    rw [← heq]
    omega
  | succ n ih =>
    intro values s out s' h
    simp only [arrayLoop] at h
    obtain ⟨mv, s1, hitem, hrest⟩ := M.bind_ok h
    cases mv with
    | some v =>
      have := ih (values ++ [v]) s1 out s' hrest
      simp only [List.length_append, List.length_cons, List.length_nil] at this
      omega
    | none =>
      by_cases hlen : values.length < min_items
      · rw [if_pos hlen] at hrest
        cases can_skip with
        | true =>
          rw [if_pos rfl] at hrest
          obtain ⟨skip, s2, hconf, hskip⟩ := M.bind_ok hrest
          cases skip with
          | true =>
            rw [if_pos rfl] at hskip
            obtain ⟨heq, -⟩ := M.pure_ok hskip
            rw [← heq]
            omega
          | false =>
            rw [if_neg (by simp)] at hskip
            have := ih values s2 out s' hskip
            omega
        | false =>
          rw [if_neg (by simp)] at hrest
          have := ih values s1 out s' hrest
          omega
      · rw [if_neg hlen] at hrest
        obtain ⟨heq, -⟩ := M.pure_ok hrest
        rw [← heq]
        omega

theorem M.bind_cong_ok {α β : Type} {m : M α} {s s1 : List Ev} {a : α}
    (h : m s = (.ok a, s1)) (f : α → M β) : M.bind m f s = f a s1 := by
  simp [M.bind, h]

/-- On a script whose next `n` events are non-empty accepted item answers,
the collection loop with `n` units of fuel accepts exactly those items and
stops, leaving the remaining script untouched. -/
theorem arrayLoop_accepted (rm : RMatch) (name : String) (c : StringConstraints)
    (can_skip : Bool) (min_items : Nat) :
    ∀ (texts : List String) (values : List Json) (rest : List Ev),
      (∀ t ∈ texts, t.isEmpty = false ∧ StringConstraints.validate rm c t = .ok ()) →
      arrayLoop
          (M.bind (stringPrompt rm name (some c) true) (fun r => M.pure (r.map Json.str)))
          can_skip min_items texts.length values (texts.map Ev.text ++ rest) =
        (.ok (values ++ texts.map Json.str), rest) := by
  intro texts
  induction texts with
  | nil =>
    intro values rest h
    simp [arrayLoop, M.pure]
  | cons t ts ih =>
    intro values rest h
    obtain ⟨hne, hval⟩ := h t (List.mem_cons_self t ts)
    have hstep :
        (M.bind (stringPrompt rm name (some c) true) (fun r => M.pure (r.map Json.str)))
          (Ev.text t :: (ts.map Ev.text ++ rest)) =
          (.ok (some (Json.str t)), ts.map Ev.text ++ rest) := by
      simp [stringPrompt, M.bind, M.pure, interactText, stringClosure, hne, hval]
    have hrec := ih (values ++ [Json.str t]) rest (fun x hx => h x (List.mem_cons_of_mem t hx))
    simp only [List.map_cons, List.cons_append, List.length_cons, arrayLoop]
    rw [M.bind_cong_ok hstep]
    simp only []
    rw [hrec]
    simp

/-- A regex collaborator that matches everything; the concrete runs below
never attach a regex, so any collaborator would do. -/
def rmTrue : RMatch := fun _ _ => .ok true

/-- A plain mandatory string field with no effective constraints, used as
the dependent field of the concrete runs. -/
def exStrField : Field := .mk none none "" (.string ⟨0, 1000, none⟩) false

theorem M.bind_cong_err {α β : Type} {m : M α} {s s1 : List Ev} {e : PErr}
    (h : m s = (.error e, s1)) (f : α → M β) : M.bind m f s = (.error e, s1) := by
  simp [M.bind, h]

/-- Evaluation of the concrete dependent string field on the answer v. -/
theorem exStrField_eval (rm : RMatch) (k : String) (quiet hide_title : Bool) (pf : PMap)
    (rest : List Ev) :
    Field.prompt rm exStrField k quiet hide_title pf (.text "v" :: rest) =
      (.ok (.str "v", pf), rest) := by
  simp [Field.prompt, exStrField, TypeConstraints.prompt, stringPrompt, interactText,
    stringClosure, StringConstraints.validate, M.bind, M.pure, byteLen, charSize,
    jsonOfOptStr, toTitleCase, debugStr]

/-- One-step evaluation of a one-field condition block in nested mode. -/
theorem promptConditionFields_single_nested (rm : RMatch) (k : String) (f : Field)
    (quiet : Bool) (pf : PMap) (s : List Ev) (vp : Json × PMap) (s' : List Ev)
    (hf : Field.prompt rm f k quiet false pf s = (.ok vp, s')) :
    promptConditionFields rm false (.cons k f .nil) quiet pf [] s =
      (.ok ([(k, vp.1)], vp.2), s') := by
  simp only [promptConditionFields]
  rw [M.bind_cong_ok hf, if_neg (by simp)]
  simp [promptConditionFields, M.pure, PMap.insert]

/-- One-step evaluation of a one-field condition block in insert-at-root
mode. -/
theorem promptConditionFields_single_root (rm : RMatch) (k : String) (f : Field)
    (quiet : Bool) (pf : PMap) (s : List Ev) (vp : Json × PMap) (s' : List Ev)
    (hf : Field.prompt rm f k quiet false pf s = (.ok vp, s')) :
    promptConditionFields rm true (.cons k f .nil) quiet pf [] s =
      (.ok ([], PMap.insert k vp.1 vp.2), s') := by
  simp only [promptConditionFields]
  rw [M.bind_cong_ok hf, if_pos trivial]
  simp [promptConditionFields, M.pure]

/-- One-step evaluation of a matching head condition in nested mode. -/
theorem scanConditions_match_nested (rm : RMatch) (picked : Json) (fields : Fields)
    (rest : IfConditions) (selected : Json) (quiet : Bool) (pf : PMap) (s : List Ev)
    (op : PMap × PMap) (s' : List Ev)
    (hmatch : Json.beq picked selected = true)
    (hcond : promptConditionFields rm false fields quiet pf [] s = (.ok op, s')) :
    scanConditions rm false (.cons (.mk picked fields) rest) selected quiet pf s =
      (.ok (some (.obj op.1), op.2), s') := by
  simp only [scanConditions]
  rw [if_pos hmatch, M.bind_cong_ok hcond]
  simp [M.pure]

/-- One-step evaluation of a matching head condition in insert-at-root
mode. -/
theorem scanConditions_match_root (rm : RMatch) (picked : Json) (fields : Fields)
    (rest : IfConditions) (selected : Json) (quiet : Bool) (pf : PMap) (s : List Ev)
    (op : PMap × PMap) (s' : List Ev)
    (hmatch : Json.beq picked selected = true)
    (hcond : promptConditionFields rm true fields quiet pf [] s = (.ok op, s')) :
    scanConditions rm true (.cons (.mk picked fields) rest) selected quiet pf s =
      (.ok (none, op.2), s') := by
  simp only [scanConditions]
  rw [if_pos hmatch, M.bind_cong_ok hcond]
  simp [M.pure]

theorem check_conditions_eval (rm : RMatch) (insert_at_root : Bool) (cs : IfConditions)
    (selected : Json) (quiet : Bool) (pf : PMap) :
    check_conditions rm (.mk insert_at_root cs) selected quiet pf =
      scanConditions rm insert_at_root cs selected quiet pf := by
  simp only [check_conditions]

/-- One-step evaluation of a skippable single-select on an interact_opt
outcome. -/
theorem TC_select_skip_eval (rm : RMatch) (sc : SelectConstraints) (conds : Conditions)
    (field_name : String) (quiet : Bool) (pf : PMap) (mi : Option Nat) (rest : List Ev)
    (rp : Option Json × PMap) (s' : List Ev)
    (hsm : sc.select_many = false)
    (hcheck : check_conditions rm conds
        ((mi.bind (fun index => sc.items.get? index)).getD .null) quiet pf rest =
        (.ok rp, s')) :
    TypeConstraints.prompt rm (.select sc conds) field_name true quiet pf
        (.selOpt mi :: rest) =
      (.ok (rp.1.getD ((mi.bind (fun index => sc.items.get? index)).getD .null), rp.2), s') := by
  simp only [TypeConstraints.prompt, hsm]
  rw [if_neg (by simp), if_pos trivial]
  rw [M.bind_cong_ok (show interactSelectOpt (Ev.selOpt mi :: rest) = (.ok mi, rest) from rfl)]
  rw [M.bind_cong_ok hcheck]
  simp [M.pure]

/-- One-step evaluation of a mandatory single-select on an interact
outcome. -/
theorem TC_select_sel_eval (rm : RMatch) (sc : SelectConstraints) (conds : Conditions)
    (field_name : String) (quiet : Bool) (pf : PMap) (index : Nat) (rest : List Ev)
    (rp : Option Json × PMap) (s' : List Ev)
    (hsm : sc.select_many = false)
    (hcheck : check_conditions rm conds ((sc.items.get? index).getD .null) quiet pf rest =
        (.ok rp, s')) :
    TypeConstraints.prompt rm (.select sc conds) field_name false quiet pf
        (.sel index :: rest) =
      (.ok (rp.1.getD ((sc.items.get? index).getD .null), rp.2), s') := by
  simp only [TypeConstraints.prompt, hsm]
  rw [if_neg (by simp), if_neg (by simp)]
  rw [M.bind_cong_ok (show interactSelect (Ev.sel index :: rest) = (.ok index, rest) from rfl)]
  rw [M.bind_cong_ok hcheck]
  simp [M.pure]

/-- A field with no display metadata prompts under its own key as label. -/
theorem Field_prompt_plain_eval (rm : RMatch) (tc : TypeConstraints) (can_skip : Bool)
    (k : String) (quiet hide_title : Bool) (pf : PMap) :
    Field.prompt rm (.mk none none "" tc can_skip) k quiet hide_title pf =
      TypeConstraints.prompt rm tc k can_skip quiet pf := by
  simp [Field.prompt, toTitleCase]

/-- One-step evaluation of a one-field schema loop. -/
theorem promptSchemaFields_single_eval (rm : RMatch) (k : String) (f : Field) (quiet : Bool)
    (pf : PMap) (s : List Ev) (vp : Json × PMap) (s' : List Ev)
    (hf : Field.prompt rm f k quiet false pf s = (.ok vp, s')) :
    promptSchemaFields rm (.cons k f .nil) quiet pf s =
      (.ok (PMap.insert k vp.1 vp.2), s') := by
  simp only [promptSchemaFields]
  rw [M.bind_cong_ok hf]
  simp [promptSchemaFields, M.pure]

/-- C2: a string answer shorter than min_length is indeed rejected, but the
rejection message interpolates the configured max_length, not the violated
min_length bound: with min_length 3 and max_length 10 the two-byte answer
"ab" is rejected with a message naming 10 (the claim says the message names
the configured min_length, 3). -/
theorem c2_min_length_message :
    StringConstraints.validate rmTrue ⟨3, 10, none⟩ "ab" =
      .error "Value \"ab\" does not meet the minimum required length (10)" := by
  rfl

/-- C6: the numeric validator accepts a parsed value exactly when it lies
in the inclusive range min..max, and a value the registered closure rejects
makes the Input widget re-ask the same field on the next scripted answer
rather than discarding or coercing it. -/
theorem c6_numeric_range_validation :
    (∀ (c : IntConstraints) (v : Int),
        IntConstraints.validate c v = .ok () ↔ (c.min ≤ v ∧ v ≤ c.max)) ∧
    (∀ (w : IWidth) (name : String) (c : IntConstraints) (can_skip : Bool)
        (bad : String) (msg : String) (rest : List Ev),
        intClosure w (some c) can_skip bad = .error msg →
        intPrompt w name (some c) can_skip (.text bad :: rest) =
          intPrompt w name (some c) can_skip rest) := by
  constructor
  · intro c v
    constructor
    · intro h
      simp only [IntConstraints.validate] at h
      split at h
      · cases h
      · split at h
        · cases h
        · omega
    · rintro ⟨h1, h2⟩
      simp only [IntConstraints.validate]
      rw [if_neg (by omega), if_neg (by omega)]
  · intro w name c can_skip bad msg rest herr
    have hskip : interactText (intClosure w (some c) can_skip) (.text bad :: rest) =
        interactText (intClosure w (some c) can_skip) rest := by
      simp [interactText, herr]
    simp only [intPrompt, M.bind, hskip]

/-- C6 witness: with bounds 1..10 on a u8 field, 10 is accepted because it
is inside the range, and the rejected answer "11" makes the widget re-ask. -/
theorem c6_numeric_range_validation_witness :
    (IntConstraints.validate ⟨1, 10⟩ 10 = .ok () ↔ ((1 : Int) ≤ 10 ∧ (10 : Int) ≤ 10)) ∧
    intPrompt .u8 "n" (some ⟨1, 10⟩) false [.text "11", .text "10"] =
      intPrompt .u8 "n" (some ⟨1, 10⟩) false [.text "10"] := by
  refine ⟨c6_numeric_range_validation.1 ⟨1, 10⟩ 10, ?_⟩
  exact c6_numeric_range_validation.2 .u8 "n" ⟨1, 10⟩ false "11"
    "Value 11 must be less than 10" [.text "10"] (by rfl)

/-- C10: whenever the registered numeric validation closure accepted the
raw text, the unwrap in maybe_parse_value is safe: an empty accepted text
happens only with skipping allowed and maps to None unparsed, and any other
accepted text re-parses successfully to the same numeric type. -/
theorem c10_second_parse_safe :
    ∀ (w : IWidth) (vopt : Option IntConstraints) (can_skip : Bool) (input : String),
      intClosure w vopt can_skip input = .ok () →
      (input = "" → can_skip = true ∧ maybe_parse_value w can_skip input = some none) ∧
      (input ≠ "" → ∃ v, parseInt w input = some v ∧
        maybe_parse_value w can_skip input = some (some v)) := by
  intro w vopt can_skip input h
  constructor
  · intro hemp
    subst hemp
    cases can_skip with
    | false =>
      exfalso
      simp [intClosure, parseInt] at h
    | true =>
      refine ⟨rfl, ?_⟩
      have hie : ("" : String).isEmpty = true := rfl
      simp [maybe_parse_value, hie]
  · intro hne
    have hie : input.isEmpty = false := by
      cases hh : input.isEmpty
      · rfl
      · exact absurd ((String.isEmpty_iff input).mp hh) hne
    simp only [intClosure, hie, Bool.and_false, Bool.false_eq_true, if_false] at h
    cases hp : parseInt w input with
    | none => rw [hp] at h; cases h
    | some v =>
      refine ⟨v, rfl, ?_⟩
      simp [maybe_parse_value, hie, hp]

/-- C10 witness: with skipping allowed on a u8 field, the accepted empty
text maps to None unparsed, and the accepted text "42" re-parses to 42. -/
theorem c10_second_parse_safe_witness :
    (("" : String) = "" → true = true ∧ maybe_parse_value .u8 true "" = some none) ∧
    (("42" : String) ≠ "" → ∃ v, parseInt .u8 "42" = some v ∧
      maybe_parse_value .u8 true "42" = some (some v)) := by
  constructor
  · exact (c10_second_parse_safe .u8 (some ⟨0, 255⟩) true "" (by rfl)).1
  · exact (c10_second_parse_safe .u8 (some ⟨0, 255⟩) true "42" (by rfl)).2

/-- C7: on a skippable primitive field an empty raw answer immediately
resolves to a skip (None, hence Null upstream) no matter what constraints
are attached, and any answer a primitive prompt accepts as a value has
passed the field's constraint validator. -/
theorem c7_skip_semantics :
    (∀ (rm : RMatch) (name : String) (c : StringConstraints) (rest : List Ev),
        stringPrompt rm name (some c) true (.text "" :: rest) = (.ok none, rest)) ∧
    (∀ (w : IWidth) (name : String) (c : IntConstraints) (rest : List Ev),
        intPrompt w name (some c) true (.text "" :: rest) = (.ok none, rest)) ∧
    (∀ (rm : RMatch) (name : String) (c : StringConstraints) (can_skip : Bool)
        (s : List Ev) (v : String) (rest : List Ev),
        stringPrompt rm name (some c) can_skip s = (.ok (some v), rest) →
        StringConstraints.validate rm c v = .ok ()) ∧
    (∀ (w : IWidth) (name : String) (c : IntConstraints) (can_skip : Bool)
        (s : List Ev) (v : Int) (rest : List Ev),
        intPrompt w name (some c) can_skip s = (.ok (some v), rest) →
        IntConstraints.validate c v = .ok ()) := by
  refine ⟨?_, ?_, ?_, ?_⟩
  · intro rm name c rest
    have hie : ("" : String).isEmpty = true := rfl
    simp [stringPrompt, M.bind, M.pure, interactText, stringClosure, hie]
  · intro w name c rest
    have hie : ("" : String).isEmpty = true := rfl
    simp [intPrompt, M.bind, M.pure, interactText, intClosure, maybe_parse_value, hie]
  · intro rm name c can_skip s v rest h
    obtain ⟨input, s1, hm, hpure⟩ := M.bind_ok h
    obtain ⟨heq, hs⟩ := M.pure_ok hpure
    have hacc := interactText_accepts _ s input s1 hm
    by_cases hcond : (can_skip && input.isEmpty) = true
    · rw [if_pos hcond] at heq
      cases heq
    · rw [if_neg hcond] at heq
      have hiv : input = v := by injection heq
      subst hiv
      simp only [stringClosure] at hacc
      rw [if_neg hcond] at hacc
      exact hacc
  · intro w name c can_skip s v rest h
    obtain ⟨input, s1, hm, hf⟩ := M.bind_ok h
    have hacc := interactText_accepts _ s input s1 hm
    cases hmp : maybe_parse_value w can_skip input with
    | none => rw [hmp] at hf; cases hf
    | some r =>
      rw [hmp] at hf
      obtain ⟨hr, -⟩ := M.pure_ok hf
      subst hr
      simp only [maybe_parse_value] at hmp
      by_cases hcond : (can_skip && input.isEmpty) = true
      · rw [if_pos hcond] at hmp
        cases hmp
      · rw [if_neg hcond] at hmp
        cases hp : parseInt w input with
        | none => rw [hp] at hmp; cases hmp
        | some u =>
          rw [hp] at hmp
          have huv : u = v := by
            injection hmp with hmp1
            injection hmp1
          subst huv
          simp only [intClosure] at hacc
          rw [if_neg hcond, hp] at hacc
          exact hacc

/-- C7 witness: a skippable bounded string field and a skippable bounded u8
field both resolve the empty answer to a skip, and concrete accepted
answers have passed their validators. -/
theorem c7_skip_semantics_witness :
    stringPrompt rmTrue "n" (some ⟨2, 5, none⟩) true [.text ""] = (.ok none, []) ∧
    intPrompt .u8 "n" (some ⟨1, 10⟩) true [.text ""] = (.ok none, []) ∧
    StringConstraints.validate rmTrue ⟨2, 5, none⟩ "abc" = .ok () ∧
    IntConstraints.validate ⟨1, 10⟩ 7 = .ok () := by
  refine ⟨c7_skip_semantics.1 rmTrue "n" ⟨2, 5, none⟩ [],
    c7_skip_semantics.2.1 .u8 "n" ⟨1, 10⟩ [], ?_, ?_⟩
  · exact c7_skip_semantics.2.2.1 rmTrue "n" ⟨2, 5, none⟩ false [.text "abc"] "abc" [] (by rfl)
  · exact c7_skip_semantics.2.2.2 .u8 "n" ⟨1, 10⟩ false [.text "7"] 7 [] (by rfl)

/-- C9: when the traversal stops with an I/O failure, that exact failure
value came from a failed ask interaction in the script, and the traversal
consumed nothing beyond that failing interaction (so no later field was
prompted); an I/O-failed traversal returns no result mapping by type. -/
theorem c9_io_failure_aborts :
    ∀ (rm : RMatch) (sch : Schema) (quiet : Bool) (s : List Ev) (e : Nat) (rest : List Ev),
      Schema.prompt rm sch quiet s = (.error (.ioFailure e), rest) →
      ∃ j, s.get? j = some (.ioErr e) ∧ rest = s.drop (j + 1) := by
  intro rm sch quiet s e rest h
  obtain ⟨k, hk, hdrop, herr⟩ := consumes_Schema_prompt rm sch quiet s
  rw [h] at hdrop herr
  obtain ⟨j, hj, hget⟩ := herr e rfl
  refine ⟨j, hget, ?_⟩
  simp only at hdrop
  rw [hdrop, hj]

/-- C9 witness: a one-field schema whose very first ask fails with error 7
aborts with that error having consumed exactly the failing event. -/
theorem c9_io_failure_aborts_witness :
    ∃ j, [Ev.ioErr 7].get? j = some (.ioErr 7) ∧
      ([] : List Ev) = [Ev.ioErr 7].drop (j + 1) := by
  refine c9_io_failure_aborts rmTrue ⟨.cons "name" exStrField .nil⟩ false [.ioErr 7] 7 [] ?_
  have h1 : interactText (stringClosure rmTrue (some ⟨0, 1000, none⟩) false) [Ev.ioErr 7] =
      (.error (.ioFailure 7), []) := by
    simp [interactText]
  have h2 : stringPrompt rmTrue "name" (some ⟨0, 1000, none⟩) false [Ev.ioErr 7] =
      (.error (.ioFailure 7), []) := by
    simp only [stringPrompt]
    exact M.bind_cong_err h1 _
  have h3 : TypeConstraints.prompt rmTrue (.string ⟨0, 1000, none⟩) "name" false false []
      [Ev.ioErr 7] = (.error (.ioFailure 7), []) := by
    simp only [TypeConstraints.prompt]
    exact M.bind_cong_err h2 _
  have h4 : Field.prompt rmTrue exStrField "name" false false [] [Ev.ioErr 7] =
      (.error (.ioFailure 7), []) := by
    rw [show exStrField = Field.mk none none "" (.string ⟨0, 1000, none⟩) false from rfl,
      Field_prompt_plain_eval]
    exact h3
  show promptSchemaFields rmTrue (.cons "name" exStrField .nil) false [] [Ev.ioErr 7] = _
  simp only [promptSchemaFields]
  exact M.bind_cong_err h4 _

/-- C5: scanning the if-conditions is first-match-wins: with every earlier
condition non-matching and one matching condition, the run is identical
whether or not any further conditions follow it, so a later condition is
never examined and its fields are never prompted. -/
theorem c5_first_match_wins :
    ∀ (rm : RMatch) (insert_at_root : Bool) (pre : IfConditions) (picked : Json)
      (depFields : Fields) (post : IfConditions) (selected : Json) (quiet : Bool)
      (pf : PMap) (s : List Ev),
      IfConditions.noneMatches pre selected = true →
      Json.beq picked selected = true →
      scanConditions rm insert_at_root
          (IfConditions.append pre (.cons (.mk picked depFields) post))
          selected quiet pf s =
        scanConditions rm insert_at_root
          (IfConditions.append pre (.cons (.mk picked depFields) .nil))
          selected quiet pf s := by
  intro rm insert_at_root pre picked depFields post selected quiet pf s hnone hmatch
  rw [scanConditions_skip rm insert_at_root pre _ selected quiet pf hnone s,
    scanConditions_skip rm insert_at_root pre _ selected quiet pf hnone s]
  simp only [scanConditions]
  rw [if_pos hmatch, if_pos hmatch]

/-- C5 witness: two conditions both picking "a": the run with the second
condition present equals the run with it removed. -/
theorem c5_first_match_wins_witness :
    scanConditions rmTrue false
        (IfConditions.append .nil (.cons (.mk (.str "a") (.cons "x" exStrField .nil))
          (.cons (.mk (.str "a") (.cons "y" exStrField .nil)) .nil)))
        (.str "a") false [] [.text "v"] =
      scanConditions rmTrue false
        (IfConditions.append .nil (.cons (.mk (.str "a") (.cons "x" exStrField .nil)) .nil))
        (.str "a") false [] [.text "v"] :=
  c5_first_match_wins rmTrue false .nil (.str "a") (.cons "x" exStrField .nil)
    (.cons (.mk (.str "a") (.cons "y" exStrField .nil)) .nil) (.str "a") false [] [.text "v"]
    (by rfl) (by decide)

/-- C1: check_conditions is invoked even when the skipped select resolved
to Null, so an if-condition whose picked value is null fires: here the
operator presses Esc (selOpt none), yet the dependent field x is still
prompted (its text answer is consumed) and the select resolves to the
object, not to Null — against the claim and the source's own doc comment
("Not triggered when value skipped", constraints.rs). -/
theorem c1_skipped_select_fires_null_condition :
    TypeConstraints.prompt rmTrue
        (.select ⟨false, [Json.str "a"]⟩
          (.mk false (.cons (.mk .null (.cons "x" exStrField .nil)) .nil)))
        "n" true false [] [.selOpt none, .text "v"] =
      (.ok (.obj [("x", .str "v")], []), []) := by
  have h1 : Field.prompt rmTrue exStrField "x" false false ([] : PMap) [.text "v"] =
      (.ok (.str "v", []), []) := exStrField_eval rmTrue "x" false false [] []
  have h2 := promptConditionFields_single_nested rmTrue "x" exStrField false [] [.text "v"]
    (.str "v", []) [] h1
  have h3 := scanConditions_match_nested rmTrue .null (.cons "x" exStrField .nil) .nil .null
    false [] [.text "v"] ([("x", .str "v")], []) [] (by decide) h2
  have h4 : check_conditions rmTrue
      (.mk false (.cons (.mk .null (.cons "x" exStrField .nil)) .nil))
      ((Option.bind (none : Option Nat)
        (fun index => (SelectConstraints.mk false [Json.str "a"]).items.get? index)).getD .null)
      false [] [.text "v"] = (.ok (some (.obj [("x", .str "v")]), []), []) := by
    rw [check_conditions_eval]
    exact h3
  exact TC_select_skip_eval rmTrue ⟨false, [Json.str "a"]⟩
    (.mk false (.cons (.mk .null (.cons "x" exStrField .nil)) .nil)) "n" false []
    none [.text "v"] (some (.obj [("x", .str "v")]), []) [] rfl h4

/-- The conditions of the C4 schema: on picking "a", insert the dependent
field x at the root. -/
def c4Conds : Conditions :=
  .mk true (.cons (.mk (.str "a") (.cons "x" exStrField .nil)) .nil)

/-- The select kind of the C4 schema. -/
def c4SelectTC : TypeConstraints :=
  .select ⟨false, [Json.str "a"]⟩ c4Conds

/-- The single field of the C4 schema. -/
def c4Field : Field := .mk none none "" c4SelectTC false

/-- A one-select-field schema whose condition inserts its dependent field
at the root of the result mapping. -/
def c4Schema : Schema := ⟨.cons "color" c4Field .nil⟩

/-- Evaluation of the C4 schema on picking "a" and answering v. -/
theorem c4Schema_eval :
    Schema.prompt rmTrue c4Schema false [.sel 0, .text "v"] =
      (.ok [("x", .str "v"), ("color", .str "a")], []) := by
  have h1 : Field.prompt rmTrue exStrField "x" false false ([] : PMap) [.text "v"] =
      (.ok (.str "v", []), []) := exStrField_eval rmTrue "x" false false [] []
  have h2 := promptConditionFields_single_root rmTrue "x" exStrField false [] [.text "v"]
    (.str "v", []) [] h1
  have h3 := scanConditions_match_root rmTrue (.str "a") (.cons "x" exStrField .nil) .nil
    (.str "a") false [] [.text "v"] ([], [("x", .str "v")]) [] (by decide) h2
  have h4 : check_conditions rmTrue c4Conds
      (((SelectConstraints.mk false [Json.str "a"]).items.get? 0).getD .null)
      false [] [.text "v"] = (.ok (none, [("x", .str "v")]), []) := by
    rw [show c4Conds = .mk true (.cons (.mk (.str "a") (.cons "x" exStrField .nil)) .nil)
      from rfl]
    rw [check_conditions_eval]
    exact h3
  have h5 := TC_select_sel_eval rmTrue ⟨false, [Json.str "a"]⟩ c4Conds "color" false [] 0
    [.text "v"] (none, [("x", .str "v")]) [] rfl h4
  have h6 : Field.prompt rmTrue c4Field "color" false false [] [.sel 0, .text "v"] =
      (.ok (.str "a", [("x", .str "v")]), []) := by
    rw [show c4Field = Field.mk none none "" c4SelectTC false from rfl,
      Field_prompt_plain_eval]
    exact h5
  have h7 := promptSchemaFields_single_eval rmTrue "color" c4Field false [] [.sel 0, .text "v"]
    (.str "a", [("x", .str "v")]) [] h6
  rw [show Schema.prompt rmTrue c4Schema false =
    promptSchemaFields rmTrue (.cons "color" c4Field .nil) false [] from rfl]
  rw [h7]
  rfl

/-- C4 counterexample: the schema declares the single top-level key color,
but the fired insert_at_root condition inserts the dependent key x into the
top-level mapping too, so the returned key set strictly exceeds the
schema's top-level keys. -/
theorem c4_counterexample :
    Schema.prompt rmTrue c4Schema false [.sel 0, .text "v"] =
      (.ok [("x", .str "v"), ("color", .str "a")], []) ∧
    Fields.keys c4Schema.fields = ["color"] ∧
    PMap.hasKey [("x", .str "v"), ("color", .str "a")] "x" = true := by
  refine ⟨c4Schema_eval, by simp [c4Schema, c4Field, Fields.keys], by decide⟩

/-- C4 amended: every declared top-level key is present in the mapping a
successful traversal returns; dependent keys of fired insert_at_root
conditions may additionally appear, so the key set contains, but need not
equal, the schema's top-level keys. -/
theorem c4_amended_keys_present :
    ∀ (rm : RMatch) (sch : Schema) (quiet : Bool) (s : List Ev) (m : PMap) (s' : List Ev),
      Schema.prompt rm sch quiet s = (.ok m, s') →
      ∀ k, k ∈ Fields.keys sch.fields → PMap.hasKey m k = true := by
  intro rm sch quiet s m s' h k hk
  exact keys_promptSchemaFields rm sch.fields quiet [] s m s' h k hk

/-- C4 amended witness: the declared key name of a one-string-field schema
is present in the returned mapping of a concrete run. -/
theorem c4_amended_keys_present_witness :
    PMap.hasKey [("name", .str "v")] "name" = true := by
  refine c4_amended_keys_present rmTrue ⟨.cons "name" exStrField .nil⟩ false [.text "v"]
    [("name", .str "v")] [] ?_ "name" (by simp [Fields.keys])
  have h1 : Field.prompt rmTrue exStrField "name" false false ([] : PMap) [.text "v"] =
      (.ok (.str "v", []), []) := exStrField_eval rmTrue "name" false false [] []
  have h7 := promptSchemaFields_single_eval rmTrue "name" exStrField false [] [.text "v"]
    (.str "v", []) [] h1
  rw [show Schema.prompt rmTrue ⟨.cons "name" exStrField .nil⟩ false =
    promptSchemaFields rmTrue (.cons "name" exStrField .nil) false [] from rfl]
  rw [h7]
  rfl

/-- C3: when a mandatory single-select resolves to a value that fires an
if-condition, insert_at_root = true keeps the override empty so the select
still resolves to the plain selected value while every dependent key lands
in the top-level mapping, and insert_at_root = false replaces the select's
value with the object assembled from exactly the dependent keys, the plain
selection being discarded. -/
theorem c3_insert_at_root_asymmetry :
    ∀ (rm : RMatch) (sc : SelectConstraints) (insert_at_root : Bool)
      (pre : IfConditions) (picked : Json) (depFields : Fields) (post : IfConditions)
      (field_name : String) (quiet : Bool) (pf : PMap) (index : Nat) (sel : Json)
      (script : List Ev) (out : Json × PMap) (s' : List Ev),
      sc.select_many = false →
      sc.items.get? index = some sel →
      IfConditions.noneMatches pre sel = true →
      Json.beq picked sel = true →
      TypeConstraints.prompt rm
          (.select sc
            (.mk insert_at_root (IfConditions.append pre (.cons (.mk picked depFields) post))))
          field_name false quiet pf (.sel index :: script) = (.ok out, s') →
      (insert_at_root = true →
        out.1 = sel ∧ ∀ k, k ∈ Fields.keys depFields → PMap.hasKey out.2 k = true) ∧
      (insert_at_root = false →
        ∃ obj, out.1 = .obj obj ∧
          ∀ k, PMap.hasKey obj k = true ↔ k ∈ Fields.keys depFields) := by
  intro rm sc iar pre picked depFields post field_name quiet pf index sel script out s'
    hsm hitem hnone hmatch h
  simp only [TypeConstraints.prompt, hsm, Bool.false_eq_true, if_false] at h
  obtain ⟨idx, s1, hm, hf⟩ := M.bind_ok h
  simp only [interactSelect] at hm
  injection hm with hm1 hm2
  injection hm1 with hm1
  subst hm1
  subst hm2
  rw [hitem] at hf
  simp only [Option.getD_some] at hf
  obtain ⟨rp, s2, hcheck, hpure⟩ := M.bind_ok hf
  obtain ⟨hout, -⟩ := M.pure_ok hpure
  simp only [check_conditions] at hcheck
  rw [scanConditions_skip rm iar pre _ sel quiet pf hnone] at hcheck
  simp only [scanConditions] at hcheck
  rw [if_pos hmatch] at hcheck
  obtain ⟨op, s3, hcond, hpure2⟩ := M.bind_ok hcheck
  obtain ⟨hrp, -⟩ := M.pure_ok hpure2
  have spec := promptConditionFields_spec rm iar depFields quiet pf [] script op s3 hcond
  subst hrp
  subst hout
  cases iar with
  | true =>
    refine ⟨fun _ => ⟨by simp, fun k hk => ?_⟩, fun hff => Bool.noConfusion hff⟩
    simpa using (spec.1 rfl).2 k hk
  | false =>
    refine ⟨fun htt => Bool.noConfusion htt, fun _ => ⟨op.1, by simp, fun k => ?_⟩⟩
    have hk := (spec.2 rfl) k
    rw [hk]
    simp [PMap.hasKey]

/-- C3 witness: items contain "a", a single condition picks "a", with one
dependent string field x; the nested mode (insert_at_root false) yields the
object with exactly the key x in place of the plain selection. -/
theorem c3_insert_at_root_asymmetry_witness :
    (false = true →
      (Json.obj [("x", Json.str "v")], ([] : PMap)).1 = Json.str "a" ∧
      ∀ k, k ∈ Fields.keys (.cons "x" exStrField .nil) →
        PMap.hasKey (Json.obj [("x", Json.str "v")], ([] : PMap)).2 k = true) ∧
    (false = false →
      ∃ obj, (Json.obj [("x", Json.str "v")], ([] : PMap)).1 = .obj obj ∧
        ∀ k, PMap.hasKey obj k = true ↔ k ∈ Fields.keys (.cons "x" exStrField .nil)) := by
  refine c3_insert_at_root_asymmetry rmTrue ⟨false, [Json.str "a"]⟩ false .nil (.str "a")
    (.cons "x" exStrField .nil) .nil "n" false [] 0 (.str "a") [.text "v"]
    (Json.obj [("x", Json.str "v")], []) [] rfl rfl rfl (by decide) ?_
  have h1 : Field.prompt rmTrue exStrField "x" false false ([] : PMap) [.text "v"] =
      (.ok (.str "v", []), []) := exStrField_eval rmTrue "x" false false [] []
  have h2 := promptConditionFields_single_nested rmTrue "x" exStrField false [] [.text "v"]
    (.str "v", []) [] h1
  have h3 := scanConditions_match_nested rmTrue (.str "a") (.cons "x" exStrField .nil) .nil
    (.str "a") false [] [.text "v"] ([("x", .str "v")], []) [] (by decide) h2
  have h4 : check_conditions rmTrue
      (.mk false
        (IfConditions.append .nil (.cons (.mk (.str "a") (.cons "x" exStrField .nil)) .nil)))
      (((SelectConstraints.mk false [Json.str "a"]).items.get? 0).getD .null)
      false [] [.text "v"] = (.ok (some (.obj [("x", .str "v")]), []), []) := by
    rw [show IfConditions.append .nil
        (.cons (.mk (.str "a") (.cons "x" exStrField .nil)) .nil) =
        (IfConditions.cons (.mk (.str "a") (.cons "x" exStrField .nil)) .nil) from by
      simp [IfConditions.append]]
    rw [check_conditions_eval]
    exact h3
  exact TC_select_sel_eval rmTrue ⟨false, [Json.str "a"]⟩
    (.mk false
      (IfConditions.append .nil (.cons (.mk (.str "a") (.cons "x" exStrField .nil)) .nil)))
    "n" false [] 0 [.text "v"] (some (.obj [("x", .str "v")]), []) [] rfl h4

/-- C8: the collection loop returns at most max_items items on any script,
and on a script offering exactly max_items accepted non-empty items it
accepts them all and stops without consuming anything further — no further
item is prompted after the max_items-th acceptance. -/
theorem c8_collection_cardinality :
    (∀ (item : M (Option Json)) (can_skip : Bool) (cc : CollectionConstraints)
        (s : List Ev) (out : Json) (s' : List Ev),
        array_prompter can_skip cc item s = (.ok out, s') →
        ∃ vs, out = .arr vs ∧ vs.length ≤ cc.max_items) ∧
    (∀ (rm : RMatch) (name : String) (c : StringConstraints) (can_skip : Bool)
        (cc : CollectionConstraints) (texts : List String) (rest : List Ev),
        texts.length = cc.max_items →
        (∀ t ∈ texts, t.isEmpty = false ∧ StringConstraints.validate rm c t = .ok ()) →
        array_prompter can_skip cc
            (M.bind (stringPrompt rm name (some c) true) (fun r => M.pure (r.map Json.str)))
            (texts.map Ev.text ++ rest) =
          (.ok (.arr (texts.map Json.str)), rest)) := by
  constructor
  · intro item can_skip cc s out s' h
    obtain ⟨values, s1, harr, hpure⟩ := M.bind_ok h
    obtain ⟨heq, -⟩ := M.pure_ok hpure
    refine ⟨values, heq.symm, ?_⟩
    simpa using arrayLoop_length item can_skip cc.min_items cc.max_items [] s values s1 harr
  · intro rm name c can_skip cc texts rest hlen hacc
    simp only [array_prompter]
    have harr := arrayLoop_accepted rm name c can_skip cc.min_items texts [] rest hacc
    rw [hlen] at harr
    rw [M.bind_cong_ok harr]
    simp [M.pure]

/-- C8 witness: with bounds 2..4, four accepted non-empty items terminate
the collection leaving the fifth scripted answer unconsumed, and the
returned array length is within the bound. -/
theorem c8_collection_cardinality_witness :
    array_prompter false ⟨2, 4⟩
        (M.bind (stringPrompt rmTrue "n" (some ⟨0, 1000, none⟩) true)
          (fun r => M.pure (r.map Json.str)))
        (["a", "b", "c", "d"].map Ev.text ++ [Ev.text "e"]) =
      (.ok (.arr (["a", "b", "c", "d"].map Json.str)), [Ev.text "e"]) ∧
    (∃ vs, Json.arr (["a", "b", "c", "d"].map Json.str) = .arr vs ∧ vs.length ≤ 4) := by
  have h2 := c8_collection_cardinality.2 rmTrue "n" ⟨0, 1000, none⟩ false ⟨2, 4⟩
    ["a", "b", "c", "d"] [Ev.text "e"] rfl (by
      intro t ht
      simp only [List.mem_cons, List.not_mem_nil, or_false] at ht
      rcases ht with rfl | rfl | rfl | rfl <;> exact ⟨rfl, rfl⟩)
  refine ⟨h2, ?_⟩
  exact c8_collection_cardinality.1
    (M.bind (stringPrompt rmTrue "n" (some ⟨0, 1000, none⟩) true)
      (fun r => M.pure (r.map Json.str)))
    false ⟨2, 4⟩ (["a", "b", "c", "d"].map Ev.text ++ [Ev.text "e"])
    (.arr (["a", "b", "c", "d"].map Json.str)) [Ev.text "e"] h2

end Promptea
